import Mathlib

/-!
Verification of the PDPTW ALNS optimizer (Route.py, Solution.py, ALNS.py)
against its specification.  The Python source is shallowly embedded:
numeric route state (times, loads, battery, distances, weights) is modelled
with exact rationals, Python lists with Lean lists, Python `set` with a
duplicate-free list, and Python's `list.remove` (which raises `ValueError`
on a missing element) with an `Option`-returning removal.  Random draws are
modelled by explicit index streams `Nat → Nat`; `randomGen.choice(lst)`
becomes indexing with the next stream value modulo the list length.
-/

namespace PDPTW

/-- Embedding of `Problem.Location`: one stop (depot, pickup, delivery or
recharge station).  `typeLoc` is 1 for pickup, -1 for delivery, 0 for
depot, 2 for recharge station, as in the source. -/
structure Location where
  requestID : Int
  xLoc : ℚ
  yLoc : ℚ
  demand : ℚ
  startTW : ℚ
  endTW : ℚ
  servTime : ℚ
  typeLoc : Int
  nodeID : Nat
deriving DecidableEq

/-- Embedding of `Problem.Request`: one pickup location paired with one
delivery location under a request id. -/
structure Request where
  pickUpLoc : Location
  deliveryLoc : Location
  ID : Int
deriving DecidableEq

/-- Embedding of `Problem.PDPTW`: the immutable problem instance shared by
all routes and solutions.  The distance matrix is a function of the two
`nodeID`s, as in the source. -/
structure Problem where
  depot : Location
  capacity : ℚ
  rechargeStations : List Location
  batteryCapacity : ℚ
  batteryConsumptionRate : ℚ
  chargingRate : ℚ
  isEV : Bool
  distMatrix : Nat → Nat → ℚ

/-- Python's `sys.maxsize` on a 64-bit platform, the "extremely large
number" used as the infeasible-route sentinel cost. -/
def pyMaxsize : ℚ := 9223372036854775807

/-- Default location used to totalise list indexing (Python would raise
`IndexError`; all verified call sites index within bounds). -/
def dummyLoc : Location := ⟨0, 0, 0, 0, 0, 0, 0, 0, 0⟩

/-- Default request used to totalise list indexing. -/
def dummyReq : Request := ⟨dummyLoc, dummyLoc, 0⟩

/-- Embedding of `Route.computeDistance`: the Python loop
`for i in range(1, len(self.locations) - 1)` accumulating
`distMatrix[locations[i-1].nodeID][locations[i].nodeID]`. -/
def computeDistance (prob : Problem) (locations : List Location) : ℚ :=
  (List.range' 1 (locations.length - 2)).foldl
    (fun totDist i =>
      totDist + prob.distMatrix (locations.getD (i - 1) dummyLoc).nodeID
        (locations.getD i dummyLoc).nodeID)
    0

/-- Modelled from the spec sentence of claim C1 (not from the source): the
sum of the matrix distances of ALL consecutive legs of the sequence,
`sum over i in 1..n-1 of distMatrix[loc[i-1]][loc[i]]`, including the
final leg back to the depot. -/
def claimedRouteDistance (prob : Problem) (locations : List Location) : ℚ :=
  (List.range' 1 (locations.length - 1)).foldl
    (fun totDist i =>
      totDist + prob.distMatrix (locations.getD (i - 1) dummyLoc).nodeID
        (locations.getD i dummyLoc).nodeID)
    0

/-- State threaded through the `isFeasible` scan: current time, current
load, battery level, the `pickedUp` set (a duplicate-free list of request
ids), and the route's location sequence (which the scan may mutate by
splicing in a recharge station). -/
structure FeasState where
  curTime : ℚ
  curLoad : ℚ
  batteryLevel : ℚ
  pickedUp : List Int
  locs : List Location
deriving DecidableEq

/-- Embedding of the nearest-recharge-station search inside
`Route.isFeasible`: fold over the problem's recharge stations keeping the
first station of strictly minimal matrix distance from `prevNode`,
starting from `(None, sys.maxsize)`. -/
def findNearestStation (prob : Problem) (prevNode : Location) :
    Option Location × ℚ :=
  prob.rechargeStations.foldl
    (fun acc station =>
      let distToStation := prob.distMatrix prevNode.nodeID station.nodeID
      if distToStation < acc.2 then (some station, distToStation) else acc)
    (none, pyMaxsize)

/-- One iteration of the `Route.isFeasible` loop body at index `i`,
returning `none` when the route is found infeasible (together with the
location list as mutated so far) and the updated state otherwise.
Mirrors the Python statement order: travel/time-window update, capacity
check, pickup/delivery precedence, then the electric-vehicle battery
block with its recharge-station splice `locations.insert(i, station)`. -/
def feasStep (prob : Problem) (i : Nat) (st : FeasState) :
    Option FeasState ⊕ (Bool × List Location) :=
  let prevNode := st.locs.getD (i - 1) dummyLoc
  let curNode := st.locs.getD i dummyLoc
  let dist := prob.distMatrix prevNode.nodeID curNode.nodeID
  let t1 := max curNode.startTW (st.curTime + prevNode.servTime + dist)
  let bat1 := st.batteryLevel - dist * prob.batteryConsumptionRate
  if t1 > curNode.endTW then Sum.inr (false, st.locs)
  else
    let load1 := st.curLoad + curNode.demand
    if load1 > prob.capacity then Sum.inr (false, st.locs)
    else
      let picked? : Option (List Int) :=
        if curNode.typeLoc = 1 then some (st.pickedUp.insert curNode.requestID)
        else if curNode.requestID ∈ st.pickedUp then
          some (st.pickedUp.erase curNode.requestID)
        else none
      match picked? with
      | none => Sum.inr (false, st.locs)
      | some picked1 =>
        if bat1 < 0 ∧ prob.isEV then
          if curNode.typeLoc = 2 then
            let chargeTime := (prob.batteryCapacity - bat1) * prob.chargingRate
            Sum.inl (some ⟨t1 + chargeTime, load1, prob.batteryCapacity,
              picked1, st.locs⟩)
          else
            let near := findNearestStation prob prevNode
            if bat1 - near.2 * prob.batteryConsumptionRate < 0 then
              Sum.inr (false, st.locs)
            else
              match near.1 with
              | none => Sum.inr (false, st.locs)
              | some nearestStation =>
                let t2 := t1 + near.2
                let bat2 := bat1 - near.2 * prob.batteryConsumptionRate
                let chargeTime := (prob.batteryCapacity - bat2) * prob.chargingRate
                Sum.inl (some ⟨t2 + chargeTime, load1, prob.batteryCapacity,
                  picked1, st.locs.insertIdx i nearestStation⟩)
        else Sum.inl (some ⟨t1, load1, bat1, picked1, st.locs⟩)

/-- The `Route.isFeasible` loop: `fuel` is the number of remaining
iterations of `for i in range(1, len(self.locations) - 1)` (Python fixes
the iteration count when the loop starts, so a splice does NOT extend
it), `i` the current index.  After the loop, the route is feasible iff
every pickup has been delivered (`len(pickedUp) > 0` fails). -/
def feasLoop (prob : Problem) : Nat → Nat → FeasState → Bool × List Location
  | 0, _, st => (st.pickedUp.isEmpty, st.locs)
  | fuel + 1, i, st =>
    match feasStep prob i st with
    | Sum.inr r => r
    | Sum.inl none => (false, st.locs)
    | Sum.inl (some st') => feasLoop prob fuel (i + 1) st'

/-- Embedding of `Route.isFeasible`: returns the feasibility verdict
together with the (possibly spliced) location sequence, since the Python
method mutates `self.locations` in place. -/
def isFeasible (prob : Problem) (locations : List Location) :
    Bool × List Location :=
  match locations.head?, locations.getLast? with
  | some h, some l =>
    if h = prob.depot ∧ l = prob.depot then
      feasLoop prob (locations.length - 2) 1
        ⟨0, 0, prob.batteryCapacity, [], locations⟩
    else (false, locations)
  | _, _ => (false, locations)

/-- Embedding of `Route`: the stored location sequence, served requests,
feasibility flag and distance (the sentinel `pyMaxsize` when
infeasible). -/
structure Route where
  locations : List Location
  requests : List Request
  feasible : Bool
  distance : ℚ
deriving DecidableEq

/-- Embedding of the `Route.__init__` constructor: run `isFeasible` (which
may splice recharge stations into the sequence), then compute the
distance of the resulting sequence, or store the sentinel. -/
def mkRoute (prob : Problem) (locations : List Location)
    (requests : List Request) : Route :=
  let fl := isFeasible prob locations
  ⟨fl.2, requests, fl.1, if fl.1 then computeDistance prob fl.2 else pyMaxsize⟩

/-- Default route used to totalise list indexing. -/
def dummyRoute : Route := ⟨[], [], false, 0⟩

/-- Embedding of Python's `list.remove`: delete the first occurrence of
`a`, or fail (`ValueError`) when `a` is absent. -/
def pyRemove {α : Type} [DecidableEq α] (l : List α) (a : α) :
    Option (List α) :=
  if a ∈ l then some (l.erase a) else none

/-- Embedding of `Route.removeRequest`: drop the request, its pickup and
its delivery, then recompute the distance (the feasibility flag is NOT
re-derived). -/
def Route.removeRequest (prob : Problem) (r : Route) (request : Request) :
    Option Route := do
  let requests' ← pyRemove r.requests request
  let locs1 ← pyRemove r.locations request.pickUpLoc
  let locs2 ← pyRemove locs1 request.deliveryLoc
  some ⟨locs2, requests', r.feasible, computeDistance prob locs2⟩

/-- Embedding of `Route.copy`: copies of the location and request lists
are fed back through the constructor, so feasibility is re-derived (and a
further splice may occur). -/
def Route.copy (prob : Problem) (r : Route) : Route :=
  mkRoute prob r.locations r.requests

/-- The ordered insertion-position pairs `(i, j)` scanned by
`Route.greedyInsert`: `i` ranges over `range(1, len(locations))` and `j`
over `range(i + 1, len(locations) + 1)`. -/
def insertionPairs (n : Nat) : List (Nat × Nat) :=
  (List.range' 1 (n - 1)).flatMap fun i =>
    (List.range' (i + 1) (n - i)).map fun j => (i, j)

/-- The candidate route `Route.greedyInsert` builds for one position pair:
insert the pickup at `i` into a copy of the sequence, then the delivery
at `j`, and run the constructor. -/
def insertionCandidate (prob : Problem) (base : List Location)
    (requests : List Request) (request : Request) (ij : Nat × Nat) : Route :=
  mkRoute prob ((base.insertIdx ij.1 request.pickUpLoc).insertIdx ij.2
    request.deliveryLoc) requests

/-- The loop body of `Route.greedyInsert`: keep the candidate when it is
feasible and strictly cheaper than the best distance so far. -/
def greedyInsertStep (prob : Problem) (base : List Location)
    (requests : List Request) (request : Request)
    (acc : Option Route × ℚ) (ij : Nat × Nat) : Option Route × ℚ :=
  let afterInsertion := insertionCandidate prob base requests request ij
  if afterInsertion.feasible ∧ afterInsertion.distance < acc.2 then
    (some afterInsertion, afterInsertion.distance)
  else acc

/-- Embedding of `Route.greedyInsert`: scan every position pair, keeping
the first feasible candidate of strictly smaller distance than the best
so far (initially `sys.maxsize`); return the best candidate or `None`. -/
def greedyInsert (prob : Problem) (r : Route) (request : Request) :
    Option Route :=
  let requestsCopy := r.requests ++ [request]
  ((insertionPairs r.locations.length).foldl
    (greedyInsertStep prob r.locations requestsCopy request)
    ((none : Option Route), pyMaxsize)).1

/-- Embedding of `Solution`: route collection, served and unserved request
lists, and the `distance` attribute (set by `computeDistance`). -/
structure Solution where
  routes : List Route
  served : List Request
  notServed : List Request
  distance : ℚ
deriving DecidableEq

/-- Embedding of `Solution.computeDistance`: sum the route distances into
the `distance` attribute. -/
def Solution.computeDistance (s : Solution) : Solution :=
  { s with distance := (s.routes.map Route.distance).sum }

/-- Embedding of `Solution.copy`: deep-copy every route (each copy re-runs
the `Route` constructor), shallow-copy the request lists, then recompute
the distance. -/
def Solution.copy (prob : Problem) (s : Solution) : Solution :=
  Solution.computeDistance
    ⟨s.routes.map (Route.copy prob), s.served, s.notServed, s.distance⟩

/-- The `for route in self.routes` loop of `Solution.removeRequest`:
remove the request from the first route that serves it and stop (the
remaining routes are untouched); when no route serves it, nothing is
removed. -/
def removeFromFirstRoute (prob : Problem) :
    List Route → Request → Option (List Route)
  | [], _ => some []
  | route :: rest, request =>
    if request ∈ route.requests then do
      let route' ← Route.removeRequest prob route request
      some (route' :: rest)
    else do
      let rest' ← removeFromFirstRoute prob rest request
      some (route :: rest')

/-- Embedding of `Solution.removeRequest`: remove the request from the
route serving it, delete it from `served` and append it to
`notServed`. -/
def Solution.removeRequest (prob : Problem) (s : Solution)
    (request : Request) : Option Solution := do
  let routes' ← removeFromFirstRoute prob s.routes request
  let served' ← pyRemove s.served request
  some ⟨routes', served', s.notServed ++ [request], s.distance⟩

/-- Embedding of `Solution.executeRandomRemoval` (destroy operator 1):
`nRemove` times, stop early if nothing is served, otherwise remove a
uniformly drawn served request.  `rng` is the engine's seeded generator
modelled as a stream of draws, `k` the next stream position. -/
def executeRandomRemoval (prob : Problem) (rng : Nat → Nat) (k : Nat) :
    Nat → Solution → Option Solution
  | 0, s => some s
  | nRemove + 1, s =>
    if s.served.isEmpty then some s
    else do
      let req := s.served.getD (rng k % s.served.length) dummyReq
      let s' ← Solution.removeRequest prob s req
      executeRandomRemoval prob rng (k + 1) nRemove s'

/-- The inner `while len(potentialRoutes) > 0` loop of
`Solution.executeRandomInsertion`: draw a random potential route, try
`greedyInsert`, drop the route on failure; on success return the chosen
route and its replacement.  Returns the updated stream position. -/
def randomInsertionTryRoutes (prob : Problem) (rng : Nat → Nat)
    (req : Request) : Nat → List Route → Nat →
    Option (Route × Route) × Nat
  | 0, _, k => (none, k)
  | fuel + 1, potentialRoutes, k =>
    if potentialRoutes.isEmpty then (none, k)
    else
      let randomRoute := potentialRoutes.getD
        (rng k % potentialRoutes.length) dummyRoute
      match greedyInsert prob randomRoute req with
      | none =>
        randomInsertionTryRoutes prob rng req fuel
          (potentialRoutes.erase randomRoute) (k + 1)
      | some afterInsertion => (some (randomRoute, afterInsertion), k + 1)

/-- Embedding of `Solution.executeRandomInsertion` (repair operator 1):
while unserved requests remain, draw one at random, try the existing
routes in random order accepting the first feasible insertion; if none
accepts, open the new route `[depot, pickup, delivery, depot]`
unconditionally; then mark the request served.  `fuel` bounds the number
of outer iterations (each consumes one unserved request). -/
def executeRandomInsertion (prob : Problem) (rng : Nat → Nat) :
    Nat → Nat → Solution → Solution × Nat
  | 0, k, s => (s, k)
  | fuel + 1, k, s =>
    if s.notServed.isEmpty then (s, k)
    else
      let req := s.notServed.getD (rng k % s.notServed.length) dummyReq
      let inner := randomInsertionTryRoutes prob rng req s.routes.length
        s.routes (k + 1)
      let routes' :=
        match inner.1 with
        | some (randomRoute, afterInsertion) =>
          s.routes.erase randomRoute ++ [afterInsertion]
        | none =>
          s.routes ++ [mkRoute prob
            [prob.depot, req.pickUpLoc, req.deliveryLoc, prob.depot] [req]]
      executeRandomInsertion prob rng fuel inner.2
        ⟨routes', s.served ++ [req], s.notServed.erase req, s.distance⟩

/-- Python's stable `list.sort(key=..., reverse=True)` on `(item, score)`
pairs: a stable sort placing larger scores first, ties kept in original
order.  `List.insertionSort` with the reflexive relation `b.2 ≤ a.2` is
exactly such a stable sort. -/
def pySortByScoreDesc {α : Type} (l : List (α × ℚ)) : List (α × ℚ) :=
  l.insertionSort fun a b => b.2 ≤ a.2

/-- Python's stable `list.sort(key=...)` on `(item, score)` pairs:
smallest score first, ties kept in original order. -/
def pySortByScoreAsc {α : Type} (l : List (α × ℚ)) : List (α × ℚ) :=
  l.insertionSort fun a b => a.2 ≤ b.2

/-- The per-request saving computed by `Solution.executeWorstRemoval`:
clone the solution, remove the request from the clone, recompute the
clone's distance, and record `self.distance - tempSol.distance`. -/
def worstRemovalSavings (prob : Problem) (s : Solution) :
    Option (List (Request × ℚ)) :=
  s.served.mapM fun req => do
    let tempSol ← Solution.removeRequest prob (Solution.copy prob s) req
    some (req, s.distance - (Solution.computeDistance tempSol).distance)

/-- The final removal loop of `Solution.executeWorstRemoval`: walk the
first `min(nRemove, len(savings))` sorted entries, removing each request
that is still served. -/
def worstRemovalLoop (prob : Problem) :
    List (Request × ℚ) → Solution → Option Solution
  | [], s => some s
  | (req, _) :: rest, s =>
    if req ∈ s.served then do
      let s' ← Solution.removeRequest prob s req
      worstRemovalLoop prob rest s'
    else worstRemovalLoop prob rest s

/-- Embedding of `Solution.executeWorstRemoval` (destroy operator 2). -/
def executeWorstRemoval (prob : Problem) (nRemove : Nat) (s : Solution) :
    Option Solution :=
  if s.served.isEmpty then some s
  else do
    let savings ← worstRemovalSavings prob s
    let sorted := pySortByScoreDesc savings
    worstRemovalLoop prob (sorted.take (min nRemove savings.length)) s

/-- The relatedness score of `Solution.executeShawRemoval`:
`1.0 * sqrt(dx^2 + dy^2) + 0.5 * |ΔstartTW|` between the pickup
locations.  The square root (a Python float operation) is abstracted as
the parameter `sqrtFn`. -/
def shawScore (sqrtFn : ℚ → ℚ) (req seedReq : Request) : ℚ :=
  let dx := req.pickUpLoc.xLoc - seedReq.pickUpLoc.xLoc
  let dy := req.pickUpLoc.yLoc - seedReq.pickUpLoc.yLoc
  1 * sqrtFn (dx ^ 2 + dy ^ 2) +
    (1 / 2) * |req.pickUpLoc.startTW - seedReq.pickUpLoc.startTW|

/-- The removal loop of `Solution.executeShawRemoval`: walk the
relatedness-sorted list, stopping as soon as `count >= nRemove`, removing
each request still served and incrementing `count`. -/
def shawRemovalLoop (prob : Problem) (nRemove : Nat) :
    List (Request × ℚ) → Nat → Solution → Option Solution
  | [], _, s => some s
  | (req, _) :: rest, count, s =>
    if nRemove ≤ count then some s
    else if req ∈ s.served then do
      let s' ← Solution.removeRequest prob s req
      shawRemovalLoop prob nRemove rest (count + 1) s'
    else shawRemovalLoop prob nRemove rest count s

/-- Embedding of `Solution.executeShawRemoval` (destroy operator 3).
Note the source draws the seed request with `random.choice(self.served)`
where `random` is the MODULE-LEVEL generator imported at the top of
`Solution.py`, not a generator passed by the engine; that implicit global
source is modelled by the extra draw `g`.  The seed is then removed
unconditionally, and the `nRemove - 1` most related requests after it. -/
def executeShawRemoval (prob : Problem) (sqrtFn : ℚ → ℚ) (g : Nat)
    (nRemove : Nat) (s : Solution) : Option Solution :=
  if s.served.isEmpty then some s
  else
    let seedReq := s.served.getD (g % s.served.length) dummyReq
    let relatedness := (s.served.filter (· ≠ seedReq)).map fun req =>
      (req, shawScore sqrtFn req seedReq)
    let sorted := pySortByScoreAsc relatedness
    do
      let s1 ← Solution.removeRequest prob s seedReq
      shawRemovalLoop prob nRemove sorted 1 s1

/-- The removal loop shared by `executeTimeOrientedRemoval`:
walk the first `min(nRemove, len(widths))` sorted entries, removing each
request still served. -/
def timeOrientedRemovalLoop (prob : Problem) :
    List (Request × ℚ) → Solution → Option Solution
  | [], s => some s
  | (req, _) :: rest, s =>
    if req ∈ s.served then do
      let s' ← Solution.removeRequest prob s req
      timeOrientedRemovalLoop prob rest s'
    else timeOrientedRemovalLoop prob rest s

/-- Embedding of `Solution.executeTimeOrientedRemoval` (destroy operator
4): sort the served requests by pickup time-window width ascending and
remove the tightest `nRemove`. -/
def executeTimeOrientedRemoval (prob : Problem) (nRemove : Nat)
    (s : Solution) : Option Solution :=
  if s.served.isEmpty then some s
  else
    let widths := s.served.map fun req =>
      (req, req.pickUpLoc.endTW - req.pickUpLoc.startTW)
    let sorted := pySortByScoreAsc widths
    timeOrientedRemovalLoop prob (sorted.take (min nRemove widths.length)) s

/-- Python's `value < float("inf")`-style comparison: the best-delta
variables of the greedy and regret insertions start at `float("inf")`,
modelled as `none`; any finite value is below it. -/
def pyLtInf (d : ℚ) : Option ℚ → Prop
  | none => True
  | some x => d < x

instance (d : ℚ) : (b : Option ℚ) → Decidable (pyLtInf d b)
  | none => isTrue trivial
  | some x => inferInstanceAs (Decidable (d < x))

/-- The four selection variables of one `executeGreedyInsertion` outer
pass: `bestDelta = float("inf")` is `none`; `bestRoute = None` with a
held `bestReq` means "open a new route". -/
structure GreedySel where
  bestDelta : Option ℚ
  bestReq : Option Request
  bestRoute : Option Route
  bestRouteAfter : Option Route
deriving DecidableEq

/-- One candidate route considered inside `executeGreedyInsertion`'s
scan: keep the insertion when `greedyInsert` succeeds and its distance
increase beats the best delta so far. -/
def greedyInsertionConsider (prob : Problem) (req : Request)
    (sel : GreedySel) (route : Route) : GreedySel :=
  match greedyInsert prob route req with
  | none => sel
  | some afterInsertion =>
    let delta := afterInsertion.distance - route.distance
    if pyLtInf delta sel.bestDelta then
      ⟨some delta, some req, some route, some afterInsertion⟩
    else sel

/-- One unserved request's scan inside `executeGreedyInsertion`: try
every existing route, then the hypothetical new route
`[depot, pickup, delivery, depot]` (kept only when feasible and its
distance beats the best delta). -/
def greedyInsertionScanReq (prob : Problem) (routes : List Route)
    (sel : GreedySel) (req : Request) : GreedySel :=
  let sel1 := routes.foldl (greedyInsertionConsider prob req) sel
  let newRoute := mkRoute prob
    [prob.depot, req.pickUpLoc, req.deliveryLoc, prob.depot] [req]
  if newRoute.feasible ∧ pyLtInf newRoute.distance sel1.bestDelta then
    ⟨some newRoute.distance, some req, none, some newRoute⟩
  else sel1

/-- The full selection pass of one `executeGreedyInsertion` outer
iteration, over every unserved request. -/
def greedyInsertionSelect (prob : Problem) (routes : List Route)
    (notServed : List Request) : GreedySel :=
  notServed.foldl (greedyInsertionScanReq prob routes) ⟨none, none, none, none⟩

/-- Embedding of `Solution.executeGreedyInsertion` (repair operator 2):
each pass commits the globally cheapest feasible insertion (existing
route or new route); break when nothing is insertable.  `fuel` bounds
the number of outer passes (each pass serves one request). -/
def executeGreedyInsertion (prob : Problem) : Nat → Solution → Solution
  | 0, s => s
  | fuel + 1, s =>
    if s.notServed.isEmpty then s
    else
      let sel := greedyInsertionSelect prob s.routes s.notServed
      match sel.bestReq with
      | none => s
      | some bestReq =>
        let routes' :=
          match sel.bestRoute with
          | none => s.routes ++ [sel.bestRouteAfter.getD dummyRoute]
          | some bestRoute =>
            s.routes.erase bestRoute ++ [sel.bestRouteAfter.getD dummyRoute]
        executeGreedyInsertion prob fuel
          ⟨routes', s.served ++ [bestReq], s.notServed.erase bestReq,
            s.distance⟩

/-- Python's stable `sorted(pairs, key=lambda x: x[0])` on
`(cost, payload)` pairs. -/
def pySortByFstAsc {β : Type} (l : List (ℚ × β)) : List (ℚ × β) :=
  l.insertionSort fun a b => a.1 ≤ b.1

/-- The five selection variables of one `executeRegretKInsertion` outer
pass: `bestRegret` starts at `-1`, `bestDelta = float("inf")` is
`none`. -/
structure RegretSel where
  bestRegret : ℚ
  bestDelta : Option ℚ
  bestReq : Option Request
  bestRoute : Option Route
  bestRouteAfter : Option Route
deriving DecidableEq

/-- One unserved request's scan inside `executeRegretKInsertion`:
collect the feasible insertion costs over existing routes plus the
new-route option, sort them ascending, compute the regret
(`costs[k-1] − costs[0]`, or `costs[last] − costs[0]` when fewer than
`k` options), and take over the selection on larger regret, ties broken
by smaller best cost.  (Indexing with `k - 1` on `Nat` matches the
Python `sortedCosts[k - 1]` for every `k ≥ 1`; the engine always calls
with the default `k = 2`.) -/
def regretScanReq (prob : Problem) (routes : List Route) (k : Nat)
    (sel : RegretSel) (req : Request) : RegretSel :=
  let insertions := routes.filterMap fun route =>
    match greedyInsert prob route req with
    | none => none
    | some afterInsertion =>
      some (afterInsertion.distance - route.distance,
        ((some route : Option Route), afterInsertion))
  let newRoute := mkRoute prob
    [prob.depot, req.pickUpLoc, req.deliveryLoc, prob.depot] [req]
  let insertions2 :=
    if newRoute.feasible then
      insertions ++ [(newRoute.distance, ((none : Option Route), newRoute))]
    else insertions
  if insertions2.isEmpty then sel
  else
    let sortedPairs := pySortByFstAsc insertions2
    let sortedCosts := sortedPairs.map Prod.fst
    let regret :=
      if k ≤ sortedCosts.length then
        sortedCosts.getD (k - 1) 0 - sortedCosts.getD 0 0
      else sortedCosts.getLast?.getD 0 - sortedCosts.getD 0 0
    if regret > sel.bestRegret ∨
        (regret = sel.bestRegret ∧ pyLtInf (sortedCosts.getD 0 0) sel.bestDelta)
    then
      ⟨regret, some (sortedCosts.getD 0 0), some req,
        (sortedPairs.getD 0 (0, (none, dummyRoute))).2.1,
        some (sortedPairs.getD 0 (0, (none, dummyRoute))).2.2⟩
    else sel

/-- Embedding of `Solution.executeRegretKInsertion` (repair operator 3):
each pass inserts the maximum-regret request at its cheapest position;
break when nothing is insertable.  `fuel` bounds the outer passes. -/
def executeRegretKInsertion (prob : Problem) (k : Nat) :
    Nat → Solution → Solution
  | 0, s => s
  | fuel + 1, s =>
    if s.notServed.isEmpty then s
    else
      let sel := s.notServed.foldl (regretScanReq prob s.routes k)
        ⟨-1, none, none, none, none⟩
      match sel.bestReq with
      | none => s
      | some bestReq =>
        let routes' :=
          match sel.bestRoute with
          | none => s.routes ++ [sel.bestRouteAfter.getD dummyRoute]
          | some bestRoute =>
            s.routes.erase bestRoute ++ [sel.bestRouteAfter.getD dummyRoute]
        executeRegretKInsertion prob k fuel
          ⟨routes', s.served ++ [bestReq], s.notServed.erase bestReq,
            s.distance⟩

/-- The ALNS engine state touched by `ALNS.checkIfAcceptNewSol`,
parameterised by the solution representation `S`. -/
structure AcceptState (S : Type) where
  tempSolution : S
  currentSolution : S
  bestSolution : S
  bestDistance : ℚ
  temperature : ℚ
  coolingRate : ℚ

/-- Embedding of `ALNS.checkIfAcceptNewSol`.  `dist` reads a solution's
distance attribute, `copy` models `Solution.copy`, `expFn` abstracts
`np.exp` (a float operation), and `randomValue` is the draw
`self.randomGen.random()` consumed only in the simulated-annealing
branch.  Returns the new state and the score criterion
(1 = new best, 2 = improving, 3 = accepted worse, 4 = rejected). -/
def checkIfAcceptNewSol {S : Type} (dist : S → ℚ) (copy : S → S)
    (expFn : ℚ → ℚ) (randomValue : ℚ) (st : AcceptState S) :
    AcceptState S × Nat :=
  if dist st.tempSolution < st.bestDistance then
    ({ st with bestDistance := dist st.tempSolution,
               bestSolution := copy st.tempSolution,
               currentSolution := copy st.tempSolution,
               temperature := st.temperature * st.coolingRate }, 1)
  else if dist st.tempSolution < dist st.currentSolution then
    ({ st with currentSolution := copy st.tempSolution,
               temperature := st.temperature * st.coolingRate }, 2)
  else
    let difference := dist st.tempSolution - dist st.currentSolution
    let acceptanceProbability := expFn (-difference / st.temperature)
    if randomValue < acceptanceProbability then
      ({ st with currentSolution := copy st.tempSolution,
                 temperature := st.temperature * st.coolingRate }, 3)
    else ({ st with temperature := st.temperature * st.coolingRate }, 4)

/-- The single-entry update inside `ALNS.updateWeights`:
`weights[opNr - 1] = decay * weights[opNr - 1] + (1 - decay) * sw`. -/
def weightEntryUpdate (decay sw : ℚ) (opNr : Nat) (weights : List ℚ) :
    List ℚ :=
  weights.set (opNr - 1) (decay * weights.getD (opNr - 1) 0 + (1 - decay) * sw)

/-- Embedding of `ALNS.normalizeWeights` for one weight vector: divide
every entry by the vector's sum. -/
def normalizeWeights (weights : List ℚ) : List ℚ :=
  weights.map fun weight => weight / weights.sum

/-- Embedding of `ALNS.updateWeights`: update the single repair and the
single destroy entry used this iteration with the score weight
`scoreWeights[scoreCriterion - 1]`, then normalize both vectors. -/
def updateWeights (decay : ℚ) (scoreWeights : List ℚ)
    (scoreCriterion destroyOpNr repairOpNr : Nat)
    (destroyWeights repairWeights : List ℚ) : List ℚ × List ℚ :=
  let selectedScoreWeight := scoreWeights.getD (scoreCriterion - 1) 0
  let repairWeights' :=
    weightEntryUpdate decay selectedScoreWeight repairOpNr repairWeights
  let destroyWeights' :=
    weightEntryUpdate decay selectedScoreWeight destroyOpNr destroyWeights
  (normalizeWeights destroyWeights', normalizeWeights repairWeights')

/-- The served/unserved partition invariant of a `Solution` with respect
to the instance's full request list: the two lists are duplicate-free,
disjoint, and together a permutation of the full request list. -/
def Partitioned (allRequests : List Request) (s : Solution) : Prop :=
  (s.served ++ s.notServed).Nodup ∧ (s.served ++ s.notServed).Perm allRequests

instance (allRequests : List Request) (s : Solution) :
    Decidable (Partitioned allRequests s) := by
  unfold Partitioned; infer_instance

/-! ### Helper lemmas -/

theorem foldl_congr_of_mem {α β : Type} {L : List β} {f g : α → β → α}
    (h : ∀ a b, b ∈ L → f a b = g a b) :
    ∀ init, L.foldl f init = L.foldl g init := by
  induction L with
  | nil => intro init; rfl
  | cons b L ih =>
    intro init
    rw [List.foldl_cons, List.foldl_cons, h init b (List.mem_cons_self b L)]
    exact ih (fun a b hb => h a b (List.mem_cons_of_mem _ hb)) _

theorem getD_dropLast {α : Type} (l : List α) (i : Nat) (d : α)
    (h : i < l.length - 1) : l.dropLast.getD i d = l.getD i d := by
  have h1 : i < l.dropLast.length := by
    rw [List.length_dropLast]; exact h
  have h2 : i < l.length := lt_of_lt_of_le h (Nat.sub_le _ _)
  rw [List.getD_eq_getElem?_getD, List.getD_eq_getElem?_getD,
    List.getElem?_eq_getElem h1, List.getElem?_eq_getElem h2,
    List.getElem_dropLast]

/-! ### Claim C1 -/

/-- A two-location instance on which `computeDistance` drops the final
leg: depot (node 0) and one other stop (node 1). -/
def c1Stop : Location := ⟨1, 3, 4, 0, 0, 100, 0, 1, 1⟩

/-- Asymmetric test distance matrix: 5 out to the stop, 7 back. -/
def c1Prob : Problem :=
  ⟨dummyLoc, 10, [], 100, 0, 0, false,
    fun i j => if i = 0 ∧ j = 1 then 5 else if i = 1 ∧ j = 0 then 7 else 0⟩

/-- Claim C1, as stated, is false: on the route
`[depot, stop, depot]` the code's `computeDistance` returns only the
outbound leg (5), not the claimed sum of all consecutive legs including
the final leg back to the depot (5 + 7 = 12). -/
theorem claim_C1_counterexample :
    computeDistance c1Prob [c1Prob.depot, c1Stop, c1Prob.depot] ≠
      claimedRouteDistance c1Prob [c1Prob.depot, c1Stop, c1Prob.depot] := by
  norm_num [computeDistance, claimedRouteDistance, c1Prob, c1Stop, dummyLoc,
    List.range']

/-- Claim C1 amended: `computeDistance` returns the sum of the matrix
distances of the consecutive legs of the sequence WITHOUT its final
element, i.e. `sum over i in 1..n-2 of distMatrix[loc[i-1]][loc[i]]` —
the final leg back to the depot is excluded (the Python loop stops at
`len(locations) - 2`). -/
theorem claim_C1_amended (prob : Problem) (locations : List Location) :
    computeDistance prob locations =
      claimedRouteDistance prob locations.dropLast := by
  unfold computeDistance claimedRouteDistance
  rw [List.length_dropLast]
  apply foldl_congr_of_mem
  intro a i hi
  rw [List.mem_range'_1] at hi
  obtain ⟨h1, h2⟩ := hi
  have hlt : i < locations.length - 1 := by omega
  have hlt' : i - 1 < locations.length - 1 := by omega
  rw [getD_dropLast _ _ _ hlt, getD_dropLast _ _ _ hlt']

/-! ### Claim C3 -/

/-- Claim C3: `checkIfAcceptNewSol` decides acceptance in priority order
(new best → improving → annealing accept/reject with probability
`exp(-(cloneCost - currentCost)/temperature)`, the drawn random value
being compared against it), and in every branch the temperature is
multiplied by the cooling rate exactly once, so it strictly shrinks for
a cooling rate in `(0, 1)` and a positive temperature. -/
theorem claim_C3_acceptance {S : Type} (dist : S → ℚ) (copy : S → S)
    (expFn : ℚ → ℚ) (randomValue : ℚ) (st : AcceptState S) :
    (checkIfAcceptNewSol dist copy expFn randomValue st).1.temperature =
      st.temperature * st.coolingRate ∧
    (dist st.tempSolution < st.bestDistance →
      (checkIfAcceptNewSol dist copy expFn randomValue st).2 = 1 ∧
      (checkIfAcceptNewSol dist copy expFn randomValue st).1.bestSolution =
        copy st.tempSolution ∧
      (checkIfAcceptNewSol dist copy expFn randomValue st).1.currentSolution =
        copy st.tempSolution ∧
      (checkIfAcceptNewSol dist copy expFn randomValue st).1.bestDistance =
        dist st.tempSolution) ∧
    (¬ dist st.tempSolution < st.bestDistance →
      dist st.tempSolution < dist st.currentSolution →
      (checkIfAcceptNewSol dist copy expFn randomValue st).2 = 2 ∧
      (checkIfAcceptNewSol dist copy expFn randomValue st).1.currentSolution =
        copy st.tempSolution ∧
      (checkIfAcceptNewSol dist copy expFn randomValue st).1.bestSolution =
        st.bestSolution ∧
      (checkIfAcceptNewSol dist copy expFn randomValue st).1.bestDistance =
        st.bestDistance) ∧
    (¬ dist st.tempSolution < st.bestDistance →
      ¬ dist st.tempSolution < dist st.currentSolution →
      randomValue < expFn (-(dist st.tempSolution - dist st.currentSolution) /
          st.temperature) →
      (checkIfAcceptNewSol dist copy expFn randomValue st).2 = 3 ∧
      (checkIfAcceptNewSol dist copy expFn randomValue st).1.currentSolution =
        copy st.tempSolution ∧
      (checkIfAcceptNewSol dist copy expFn randomValue st).1.bestSolution =
        st.bestSolution) ∧
    (¬ dist st.tempSolution < st.bestDistance →
      ¬ dist st.tempSolution < dist st.currentSolution →
      ¬ randomValue < expFn (-(dist st.tempSolution - dist st.currentSolution) /
          st.temperature) →
      (checkIfAcceptNewSol dist copy expFn randomValue st).2 = 4 ∧
      (checkIfAcceptNewSol dist copy expFn randomValue st).1.currentSolution =
        st.currentSolution ∧
      (checkIfAcceptNewSol dist copy expFn randomValue st).1.bestSolution =
        st.bestSolution) ∧
    (0 < st.coolingRate → st.coolingRate < 1 → 0 < st.temperature →
      (checkIfAcceptNewSol dist copy expFn randomValue st).1.temperature <
        st.temperature) := by
  show _ ∧ _ ∧ _ ∧ _ ∧ _ ∧ _
  unfold checkIfAcceptNewSol
  by_cases h1 : dist st.tempSolution < st.bestDistance
  · rw [if_pos h1]
    exact ⟨rfl, fun _ => ⟨rfl, rfl, rfl, rfl⟩,
      fun ha => absurd h1 ha, fun ha => absurd h1 ha, fun ha => absurd h1 ha,
      fun _ hb hc => mul_lt_of_lt_one_right hc hb⟩
  · rw [if_neg h1]
    by_cases h2 : dist st.tempSolution < dist st.currentSolution
    · rw [if_pos h2]
      exact ⟨rfl, fun ha => absurd ha h1, fun _ _ => ⟨rfl, rfl, rfl, rfl⟩,
        fun _ hb => absurd h2 hb, fun _ hb => absurd h2 hb,
        fun _ hb hc => mul_lt_of_lt_one_right hc hb⟩
    · rw [if_neg h2]
      show _ ∧ _ ∧ _ ∧ _ ∧ _ ∧ _
      by_cases h3 : randomValue <
        expFn (-(dist st.tempSolution - dist st.currentSolution) /
          st.temperature)
      · rw [if_pos h3]
        exact ⟨rfl, fun ha => absurd ha h1, fun _ hb => absurd hb h2,
          fun _ _ _ => ⟨rfl, rfl, rfl⟩, fun _ _ hc => absurd h3 hc,
          fun _ hb hc => mul_lt_of_lt_one_right hc hb⟩
      · rw [if_neg h3]
        exact ⟨rfl, fun ha => absurd ha h1, fun _ hb => absurd hb h2,
          fun _ _ hc => absurd hc h3, fun _ _ _ => ⟨rfl, rfl, rfl⟩,
          fun _ hb hc => mul_lt_of_lt_one_right hc hb⟩

/-- Concrete witness for claim C3: clone cost 90 beats best 100 (new
best), and with cooling rate 1/2 and temperature 1000 the temperature
strictly shrinks. -/
theorem claim_C3_acceptance_witness :
    (checkIfAcceptNewSol (id : ℚ → ℚ) id (fun _ => 1 / 2) 0
        ⟨90, 100, 100, 100, 1000, 1 / 2⟩).2 = 1 ∧
    (checkIfAcceptNewSol (id : ℚ → ℚ) id (fun _ => 1 / 2) 0
        ⟨90, 100, 100, 100, 1000, 1 / 2⟩).1.temperature < 1000 := by
  have h := claim_C3_acceptance (id : ℚ → ℚ) id (fun _ => 1 / 2) 0
    ⟨90, 100, 100, 100, 1000, 1 / 2⟩
  exact ⟨(h.2.1 (by norm_num)).1,
    h.2.2.2.2.2 (by norm_num) (by norm_num) (by norm_num)⟩

/-! ### Claim C5 -/

theorem getD_set_ne {l : List ℚ} {i j : Nat} (a : ℚ) (h : i ≠ j) :
    (l.set i a).getD j 0 = l.getD j 0 := by
  rw [List.getD_eq_getElem?_getD, List.getD_eq_getElem?_getD,
    List.getElem?_set_ne h]

theorem getD_set_self {l : List ℚ} {i : Nat} (a : ℚ) (h : i < l.length) :
    (l.set i a).getD i 0 = a := by
  rw [List.getD_eq_getElem?_getD, List.getElem?_set_self']
  simp [h]

theorem normalizeWeights_sum_one {w : List ℚ} (h : w.sum ≠ 0) :
    (normalizeWeights w).sum = 1 := by
  unfold normalizeWeights
  simp only [div_eq_mul_inv]
  rw [List.sum_map_mul_right]
  simp [mul_inv_cancel₀ h]

theorem weightEntryUpdate_sum_ne_zero {decay sw : ℚ} {opNr : Nat}
    {w : List ℚ} (hidx : opNr - 1 < w.length) (hd0 : 0 < decay)
    (hd1 : decay < 1) (hw : ∀ x ∈ w, 0 < x) (hsw : 0 ≤ sw) :
    (weightEntryUpdate decay sw opNr w).sum ≠ 0 := by
  have hpos : ∀ x ∈ weightEntryUpdate decay sw opNr w, 0 < x := by
    intro x hx
    rcases List.mem_or_eq_of_mem_set hx with hmem | heq
    · exact hw x hmem
    · subst heq
      have hold : w.getD (opNr - 1) 0 ∈ w := by
        rw [List.getD_eq_getElem?_getD, List.getElem?_eq_getElem hidx]
        exact List.getElem_mem hidx
      have h1 : 0 < decay * w.getD (opNr - 1) 0 :=
        mul_pos hd0 (hw _ hold)
      have h2 : 0 ≤ (1 - decay) * sw := mul_nonneg (by linarith) hsw
      linarith
  have hne : weightEntryUpdate decay sw opNr w ≠ [] := by
    intro hcon
    have := List.length_set w (opNr - 1)
      (decay * w.getD (opNr - 1) 0 + (1 - decay) * sw)
    unfold weightEntryUpdate at hcon
    rw [hcon] at this
    simp at this
    omega
  exact ne_of_gt (List.sum_pos _ hpos hne)

/-- Claim C5: `updateWeights` updates only the two operator entries used
this iteration, each to `decay * weight + (1 - decay) * scoreWeight`,
and after the renormalization the destroy-weight vector and the
repair-weight vector each sum to exactly 1 in exact rational
arithmetic (given positive weights, `0 < decay < 1`, a nonnegative score
weight and in-range operator numbers). -/
theorem claim_C5_updateWeights (decay : ℚ) (scoreWeights : List ℚ)
    (scoreCriterion destroyOpNr repairOpNr : Nat)
    (destroyWeights repairWeights : List ℚ)
    (hdIdx : destroyOpNr - 1 < destroyWeights.length)
    (hrIdx : repairOpNr - 1 < repairWeights.length)
    (hd0 : 0 < decay) (hd1 : decay < 1)
    (hdw : ∀ x ∈ destroyWeights, 0 < x)
    (hrw : ∀ x ∈ repairWeights, 0 < x)
    (hsw : 0 ≤ scoreWeights.getD (scoreCriterion - 1) 0) :
    (∀ j, j ≠ destroyOpNr - 1 →
      (weightEntryUpdate decay (scoreWeights.getD (scoreCriterion - 1) 0)
        destroyOpNr destroyWeights).getD j 0 = destroyWeights.getD j 0) ∧
    (weightEntryUpdate decay (scoreWeights.getD (scoreCriterion - 1) 0)
        destroyOpNr destroyWeights).getD (destroyOpNr - 1) 0 =
      decay * destroyWeights.getD (destroyOpNr - 1) 0 +
        (1 - decay) * scoreWeights.getD (scoreCriterion - 1) 0 ∧
    (∀ j, j ≠ repairOpNr - 1 →
      (weightEntryUpdate decay (scoreWeights.getD (scoreCriterion - 1) 0)
        repairOpNr repairWeights).getD j 0 = repairWeights.getD j 0) ∧
    (weightEntryUpdate decay (scoreWeights.getD (scoreCriterion - 1) 0)
        repairOpNr repairWeights).getD (repairOpNr - 1) 0 =
      decay * repairWeights.getD (repairOpNr - 1) 0 +
        (1 - decay) * scoreWeights.getD (scoreCriterion - 1) 0 ∧
    (updateWeights decay scoreWeights scoreCriterion destroyOpNr repairOpNr
      destroyWeights repairWeights).1.sum = 1 ∧
    (updateWeights decay scoreWeights scoreCriterion destroyOpNr repairOpNr
      destroyWeights repairWeights).2.sum = 1 := by
  refine ⟨fun j hj => getD_set_ne _ hj.symm, getD_set_self _ hdIdx,
    fun j hj => getD_set_ne _ hj.symm, getD_set_self _ hrIdx, ?_, ?_⟩
  · exact normalizeWeights_sum_one
      (weightEntryUpdate_sum_ne_zero hdIdx hd0 hd1 hdw hsw)
  · exact normalizeWeights_sum_one
      (weightEntryUpdate_sum_ne_zero hrIdx hd0 hd1 hrw hsw)

/-- Concrete witness for claim C5: three destroy operators with weights
`[1/3, 1/3, 1/3]`, two repair operators with weights `[1/2, 1/2]`,
decay 3/4, score weight 1/2 (criterion 2), operators 2 and 1 used. -/
theorem claim_C5_updateWeights_witness :
    (updateWeights (3 / 4) [1, 1 / 2, 3 / 10, 1 / 10] 2 2 1
      [1 / 3, 1 / 3, 1 / 3] [1 / 2, 1 / 2]).1.sum = 1 ∧
    (updateWeights (3 / 4) [1, 1 / 2, 3 / 10, 1 / 10] 2 2 1
      [1 / 3, 1 / 3, 1 / 3] [1 / 2, 1 / 2]).2.sum = 1 := by
  have h := claim_C5_updateWeights (3 / 4) [1, 1 / 2, 3 / 10, 1 / 10] 2 2 1
    [1 / 3, 1 / 3, 1 / 3] [1 / 2, 1 / 2]
    (by norm_num) (by norm_num) (by norm_num) (by norm_num)
    (by intro x hx; fin_cases hx <;> norm_num)
    (by intro x hx; fin_cases hx <;> norm_num)
    (by norm_num)
  exact ⟨h.2.2.2.2.1, h.2.2.2.2.2⟩

/-! ### Claim C2 -/

theorem getD_mem_of_lt {α : Type} (l : List α) (i : Nat) (d : α)
    (h : i < l.length) : l.getD i d ∈ l := by
  rw [List.getD_eq_getElem?_getD, List.getElem?_eq_getElem h]
  exact List.getElem_mem h

theorem pyRemove_eq_some {α : Type} [DecidableEq α] {l l' : List α} {a : α}
    (h : pyRemove l a = some l') : a ∈ l ∧ l' = l.erase a := by
  unfold pyRemove at h
  by_cases hm : a ∈ l
  · rw [if_pos hm] at h
    exact ⟨hm, (Option.some_inj.mp h).symm⟩
  · rw [if_neg hm] at h
    exact absurd h (by simp)

/-- Field-level description of a successful `Solution.removeRequest`:
the request was served, it moves from `served` to the end of
`notServed`, and the stored distance is untouched. -/
theorem Solution.removeRequest_spec {prob : Problem} {s s' : Solution}
    {req : Request} (h : Solution.removeRequest prob s req = some s') :
    req ∈ s.served ∧ s'.served = s.served.erase req ∧
      s'.notServed = s.notServed ++ [req] ∧ s'.distance = s.distance := by
  unfold Solution.removeRequest at h
  simp only [Option.bind_eq_bind, Option.bind_eq_some] at h
  obtain ⟨routes', _, served', hs, hr⟩ := h
  obtain ⟨hm, hserved⟩ := pyRemove_eq_some hs
  cases hr
  exact ⟨hm, hserved, rfl, rfl⟩

theorem partitioned_of_remove {allRequests : List Request} {s : Solution}
    {req : Request} (hp : Partitioned allRequests s) (hm : req ∈ s.served)
    (routes' : List Route) (d : ℚ) :
    Partitioned allRequests
      ⟨routes', s.served.erase req, s.notServed ++ [req], d⟩ := by
  have hperm : (s.served.erase req ++ (s.notServed ++ [req])).Perm
      (s.served ++ s.notServed) := by
    have e1 : s.served.erase req ++ (s.notServed ++ [req]) =
        (s.served.erase req ++ s.notServed) ++ [req] :=
      (List.append_assoc _ _ _).symm
    rw [e1]
    exact (List.perm_append_singleton _ _).trans
      ((List.perm_cons_erase hm).symm.append_right _)
  exact ⟨hperm.nodup_iff.mpr hp.1, hperm.trans hp.2⟩

theorem partitioned_of_insertStep {allRequests : List Request}
    {s : Solution} {req : Request} (hp : Partitioned allRequests s)
    (hm : req ∈ s.notServed) (routes' : List Route) (d : ℚ) :
    Partitioned allRequests
      ⟨routes', s.served ++ [req], s.notServed.erase req, d⟩ := by
  have hperm : ((s.served ++ [req]) ++ s.notServed.erase req).Perm
      (s.served ++ s.notServed) := by
    have e1 : (s.served ++ [req]) ++ s.notServed.erase req =
        s.served ++ (req :: s.notServed.erase req) :=
      List.append_assoc _ _ _
    rw [e1]
    exact List.Perm.append_left _ (List.perm_cons_erase hm).symm
  exact ⟨hperm.nodup_iff.mpr hp.1, hperm.trans hp.2⟩

theorem greedyInsertionConsider_bestReq (prob : Problem) (req : Request)
    (sel : GreedySel) (route : Route) :
    (greedyInsertionConsider prob req sel route).bestReq = sel.bestReq ∨
    (greedyInsertionConsider prob req sel route).bestReq = some req := by
  unfold greedyInsertionConsider
  cases greedyInsert prob route req with
  | none => left; rfl
  | some afterInsertion =>
    dsimp only
    split
    · right; rfl
    · left; rfl

theorem greedyInsertionScanRoutes_bestReq (prob : Problem) (req : Request) :
    ∀ (routes : List Route) (sel : GreedySel),
      (routes.foldl (greedyInsertionConsider prob req) sel).bestReq =
        sel.bestReq ∨
      (routes.foldl (greedyInsertionConsider prob req) sel).bestReq =
        some req := by
  intro routes
  induction routes with
  | nil => intro sel; left; rfl
  | cons route rest ih =>
    intro sel
    rw [List.foldl_cons]
    rcases ih (greedyInsertionConsider prob req sel route) with h | h
    · rw [h]
      exact greedyInsertionConsider_bestReq prob req sel route
    · right; exact h

theorem greedyInsertionScanReq_bestReq (prob : Problem)
    (routes : List Route) (sel : GreedySel) (req : Request) :
    (greedyInsertionScanReq prob routes sel req).bestReq = sel.bestReq ∨
    (greedyInsertionScanReq prob routes sel req).bestReq = some req := by
  unfold greedyInsertionScanReq
  dsimp only
  split
  · right; rfl
  · exact greedyInsertionScanRoutes_bestReq prob req routes sel

theorem regretScanReq_bestReq (prob : Problem) (routes : List Route)
    (k : Nat) (sel : RegretSel) (req : Request) :
    (regretScanReq prob routes k sel req).bestReq = sel.bestReq ∨
    (regretScanReq prob routes k sel req).bestReq = some req := by
  unfold regretScanReq
  dsimp only
  repeat' split
  all_goals first | (left; rfl) | (right; rfl)

theorem foldl_bestReq_mem {σ : Type} (f : σ → Request → σ)
    (proj : σ → Option Request)
    (hstep : ∀ sel req, proj (f sel req) = proj sel ∨
      proj (f sel req) = some req) :
    ∀ (l : List Request) (sel : σ) (r : Request),
      proj (l.foldl f sel) = some r → proj sel = some r ∨ r ∈ l := by
  intro l
  induction l with
  | nil => intro sel r h; left; exact h
  | cons x l ih =>
    intro sel r h
    rw [List.foldl_cons] at h
    rcases ih (f sel x) r h with h1 | h1
    · rcases hstep sel x with h2 | h2
      · left; rw [← h2]; exact h1
      · right
        rw [h2] at h1
        exact List.mem_cons.mpr (Or.inl (Option.some_inj.mp h1).symm)
    · right; exact List.mem_cons_of_mem _ h1

/-- Claim C2: the served/unserved partition of the full request list is
preserved by `Solution.removeRequest` (the primitive through which every
destroy operator removes a request) and by each of the three repair
operators: `executeRandomInsertion`, `executeGreedyInsertion` and
`executeRegretKInsertion`. -/
theorem claim_C2_partition (prob : Problem) (allRequests : List Request) :
    (∀ s s' req, Partitioned allRequests s →
      Solution.removeRequest prob s req = some s' →
      Partitioned allRequests s') ∧
    (∀ rng fuel k s, Partitioned allRequests s →
      Partitioned allRequests (executeRandomInsertion prob rng fuel k s).1) ∧
    (∀ fuel s, Partitioned allRequests s →
      Partitioned allRequests (executeGreedyInsertion prob fuel s)) ∧
    (∀ k fuel s, Partitioned allRequests s →
      Partitioned allRequests (executeRegretKInsertion prob k fuel s)) := by
  refine ⟨?_, ?_, ?_, ?_⟩
  · intro s s' req hp h
    obtain ⟨hm, hserved, hnot, _⟩ := Solution.removeRequest_spec h
    have := partitioned_of_remove hp hm s'.routes s'.distance
    have hs' : s' = ⟨s'.routes, s.served.erase req, s.notServed ++ [req],
        s'.distance⟩ := by
      cases s'
      simp_all
    rw [hs']
    exact this
  · intro rng fuel
    induction fuel with
    | zero => intro k s hp; exact hp
    | succ fuel ih =>
      intro k s hp
      rw [executeRandomInsertion]
      by_cases hempty : s.notServed.isEmpty
      · rw [if_pos hempty]; exact hp
      · rw [if_neg hempty]
        have hne : s.notServed ≠ [] := by
          intro hcon; rw [hcon] at hempty; exact hempty rfl
        have hlen : 0 < s.notServed.length := List.length_pos.mpr hne
        have hm : s.notServed.getD (rng k % s.notServed.length) dummyReq ∈
            s.notServed :=
          getD_mem_of_lt _ _ _ (Nat.mod_lt _ hlen)
        exact ih _ _ (partitioned_of_insertStep hp hm _ _)
  · intro fuel
    induction fuel with
    | zero => intro s hp; exact hp
    | succ fuel ih =>
      intro s hp
      rw [executeGreedyInsertion]
      by_cases hempty : s.notServed.isEmpty
      · rw [if_pos hempty]; exact hp
      · rw [if_neg hempty]
        dsimp only
        cases hsel : (greedyInsertionSelect prob s.routes s.notServed).bestReq
          with
        | none => exact hp
        | some bestReq =>
          have hmem : bestReq ∈ s.notServed := by
            rcases foldl_bestReq_mem (greedyInsertionScanReq prob s.routes)
              GreedySel.bestReq
              (fun sel req =>
                greedyInsertionScanReq_bestReq prob s.routes sel req)
              s.notServed ⟨none, none, none, none⟩ bestReq hsel with h | h
            · exact absurd h (by simp)
            · exact h
          exact ih _ (partitioned_of_insertStep hp hmem _ _)
  · intro k fuel
    induction fuel with
    | zero => intro s hp; exact hp
    | succ fuel ih =>
      intro s hp
      rw [executeRegretKInsertion]
      by_cases hempty : s.notServed.isEmpty
      · rw [if_pos hempty]; exact hp
      · rw [if_neg hempty]
        dsimp only
        cases hsel : (s.notServed.foldl (regretScanReq prob s.routes k)
            ⟨-1, none, none, none, none⟩).bestReq with
        | none => exact hp
        | some bestReq =>
          have hmem : bestReq ∈ s.notServed := by
            rcases foldl_bestReq_mem (regretScanReq prob s.routes k)
              RegretSel.bestReq
              (fun sel req => regretScanReq_bestReq prob s.routes k sel req)
              s.notServed ⟨-1, none, none, none, none⟩ bestReq hsel with h | h
            · exact absurd h (by simp)
            · exact h
          exact ih _ (partitioned_of_insertStep hp hmem _ _)

/-- Concrete witness for claim C2: a one-request instance; each of the
three repair operators preserves the partition. -/
theorem claim_C2_partition_witness :
    Partitioned [⟨⟨1, 0, 0, 1, 0, 10, 0, 1, 1⟩, ⟨1, 0, 0, -1, 0, 10, 0, -1, 2⟩, 1⟩]
      ((executeRandomInsertion
        ⟨dummyLoc, 10, [], 100, 0, 0, false, fun _ _ => 0⟩ (fun _ => 0) 1 0
        ⟨[], [], [⟨⟨1, 0, 0, 1, 0, 10, 0, 1, 1⟩, ⟨1, 0, 0, -1, 0, 10, 0, -1, 2⟩, 1⟩], 0⟩).1) ∧
    Partitioned [⟨⟨1, 0, 0, 1, 0, 10, 0, 1, 1⟩, ⟨1, 0, 0, -1, 0, 10, 0, -1, 2⟩, 1⟩]
      (executeGreedyInsertion
        ⟨dummyLoc, 10, [], 100, 0, 0, false, fun _ _ => 0⟩ 1
        ⟨[], [], [⟨⟨1, 0, 0, 1, 0, 10, 0, 1, 1⟩, ⟨1, 0, 0, -1, 0, 10, 0, -1, 2⟩, 1⟩], 0⟩) ∧
    Partitioned [⟨⟨1, 0, 0, 1, 0, 10, 0, 1, 1⟩, ⟨1, 0, 0, -1, 0, 10, 0, -1, 2⟩, 1⟩]
      (executeRegretKInsertion
        ⟨dummyLoc, 10, [], 100, 0, 0, false, fun _ _ => 0⟩ 2 1
        ⟨[], [], [⟨⟨1, 0, 0, 1, 0, 10, 0, 1, 1⟩, ⟨1, 0, 0, -1, 0, 10, 0, -1, 2⟩, 1⟩], 0⟩) := by
  have hp : Partitioned
      [⟨⟨1, 0, 0, 1, 0, 10, 0, 1, 1⟩, ⟨1, 0, 0, -1, 0, 10, 0, -1, 2⟩, 1⟩]
      ⟨[], [], [⟨⟨1, 0, 0, 1, 0, 10, 0, 1, 1⟩, ⟨1, 0, 0, -1, 0, 10, 0, -1, 2⟩, 1⟩], 0⟩ := by
    constructor
    · simp
    · simp
  exact ⟨(claim_C2_partition _ _).2.1 (fun _ => 0) 1 0 _ hp,
    (claim_C2_partition _ _).2.2.1 1 _ hp,
    (claim_C2_partition _ _).2.2.2 2 1 _ hp⟩

/-! ### Test fixtures shared by concrete evaluations -/


/-- A non-EV problem with a zero distance matrix, used to exercise the
solution-level operators on concrete inputs. -/
def flatProb : Problem := ⟨dummyLoc, 10, [], 100, 0, 0, false, fun _ _ => 0⟩

/-- Test request 1: pickup at the origin, nodes 1 and 2. -/
def reqA : Request :=
  ⟨⟨1, 0, 0, 1, 0, 10, 0, 1, 1⟩, ⟨1, 0, 0, -1, 0, 10, 0, -1, 2⟩, 1⟩

/-- Test request 2: pickup at x = 3, nodes 3 and 4. -/
def reqB : Request :=
  ⟨⟨2, 3, 0, 1, 0, 10, 0, 1, 3⟩, ⟨2, 3, 0, -1, 0, 10, 0, -1, 4⟩, 2⟩

/-- A route of `flatProb` serving only `reqA`. -/
def routeA : Route :=
  ⟨[dummyLoc, reqA.pickUpLoc, reqA.deliveryLoc, dummyLoc], [reqA], true, 0⟩

/-- A route of `flatProb` serving only `reqB`. -/
def routeB : Route :=
  ⟨[dummyLoc, reqB.pickUpLoc, reqB.deliveryLoc, dummyLoc], [reqB], true, 0⟩

/-- A solution of `flatProb` serving `reqA` on one route. -/
def solA : Solution := ⟨[routeA], [reqA], [], 0⟩

/-- A solution of `flatProb` serving `reqA` and `reqB` on two routes. -/
def solAB : Solution := ⟨[routeA, routeB], [reqA, reqB], [], 0⟩

/-! ### Claim C6 -/

/-- Claim C6, as stated, is false: `executeShawRemoval` with
`nRemove = 0` on a solution with one served request still removes the
seed request, changing the served list. -/
theorem claim_C6_counterexample :
    (executeShawRemoval flatProb id 0 0 solA).map Solution.served ≠
      some solA.served := by
  simp [executeShawRemoval, solA, routeA, reqA, dummyLoc, flatProb,
    Solution.removeRequest, removeFromFirstRoute, Route.removeRequest,
    pyRemove, computeDistance, shawRemovalLoop, dummyReq]

theorem shawRemovalLoop_zero (prob : Problem) (l : List (Request × ℚ))
    (count : Nat) (s : Solution) :
    shawRemovalLoop prob 0 l count s = some s := by
  cases l with
  | nil => rfl
  | cons hd tl =>
    obtain ⟨req, score⟩ := hd
    unfold shawRemovalLoop
    rw [if_pos (Nat.zero_le _)]

/-- Claim C6 amended: with `nRemove = 0`, `executeRandomRemoval`,
`executeWorstRemoval` and `executeTimeOrientedRemoval` leave the solution
(and in particular its served/notServed lists) unchanged, but
`executeShawRemoval` on a nonempty served list still performs exactly the
removal of its randomly drawn seed request. -/
theorem claim_C6_amended (prob : Problem) (sqrtFn : ℚ → ℚ)
    (rng : Nat → Nat) (g k : Nat) (s : Solution) :
    executeRandomRemoval prob rng k 0 s = some s ∧
    (∀ s', executeWorstRemoval prob 0 s = some s' → s' = s) ∧
    executeTimeOrientedRemoval prob 0 s = some s ∧
    (s.served ≠ [] →
      executeShawRemoval prob sqrtFn g 0 s =
        Solution.removeRequest prob s
          (s.served.getD (g % s.served.length) dummyReq)) := by
  refine ⟨rfl, ?_, ?_, ?_⟩
  · intro s' h
    unfold executeWorstRemoval at h
    by_cases he : s.served.isEmpty
    · rw [if_pos he] at h
      exact (Option.some_inj.mp h).symm
    · rw [if_neg he] at h
      simp only [Option.bind_eq_bind, Option.bind_eq_some] at h
      obtain ⟨savings, _, h2⟩ := h
      simp only [Nat.zero_min, List.take_zero, worstRemovalLoop] at h2
      exact (Option.some_inj.mp h2).symm
  · unfold executeTimeOrientedRemoval
    by_cases he : s.served.isEmpty
    · rw [if_pos he]
    · rw [if_neg he]
      simp only [Nat.zero_min, List.take_zero, timeOrientedRemovalLoop]
  · intro hne
    unfold executeShawRemoval
    rw [if_neg (by simpa [List.isEmpty_iff] using hne)]
    dsimp only
    cases hx : Solution.removeRequest prob s
        (s.served.getD (g % s.served.length) dummyReq) with
    | none => rfl
    | some s1 => exact shawRemovalLoop_zero prob _ 1 s1

/-- Concrete witness for the amended claim C6: on the one-request
solution, Shaw removal with `nRemove = 0` performs exactly the removal of
the drawn seed request. -/
theorem claim_C6_amended_witness :
    executeShawRemoval flatProb id 0 0 solA =
      Solution.removeRequest flatProb solA
        (solA.served.getD (0 % solA.served.length) dummyReq) :=
  (claim_C6_amended flatProb id (fun _ => 0) 0 0 solA).2.2.2
    (by simp [solA])

/-! ### Claim C7 -/

/-- Claim C7, as stated, is false: `executeShawRemoval` is NOT a function
of the engine's threaded generator alone — it reads the module-global
generator (modelled by the draw `g`), and two different global states
produce different served lists on the same solution with everything else
(including the engine generator) equal. -/
theorem claim_C7_counterexample :
    (executeShawRemoval flatProb id 0 1 solAB).map Solution.served ≠
      (executeShawRemoval flatProb id 1 1 solAB).map Solution.served := by
  norm_num [executeShawRemoval, solAB, routeA, routeB, reqA, reqB, dummyLoc,
    flatProb, Solution.removeRequest, removeFromFirstRoute,
    Route.removeRequest, pyRemove, computeDistance, shawRemovalLoop,
    dummyReq, shawScore, pySortByScoreAsc, List.insertionSort,
    List.orderedInsert]

theorem randomInsertionTryRoutes_counter_ge (prob : Problem)
    (rng : Nat → Nat) (req : Request) :
    ∀ fuel pot k, k ≤ (randomInsertionTryRoutes prob rng req fuel pot k).2 := by
  intro fuel
  induction fuel with
  | zero => intro pot k; exact le_refl k
  | succ fuel ih =>
    intro pot k
    unfold randomInsertionTryRoutes
    by_cases he : pot.isEmpty
    · rw [if_pos he]
    · rw [if_neg he]
      dsimp only
      cases hg : greedyInsert prob (pot.getD (rng k % pot.length) dummyRoute)
          req with
      | none => exact le_trans (Nat.le_succ k) (ih _ (k + 1))
      | some r => exact Nat.le_succ k

theorem randomInsertionTryRoutes_congr (prob : Problem) (req : Request)
    (rng rng' : Nat → Nat) :
    ∀ fuel pot k, (∀ j, k ≤ j → rng j = rng' j) →
      randomInsertionTryRoutes prob rng req fuel pot k =
        randomInsertionTryRoutes prob rng' req fuel pot k := by
  intro fuel
  induction fuel with
  | zero => intro pot k _; rfl
  | succ fuel ih =>
    intro pot k h
    unfold randomInsertionTryRoutes
    by_cases he : pot.isEmpty
    · rw [if_pos he, if_pos he]
    · rw [if_neg he, if_neg he, h k (le_refl k)]
      dsimp only
      cases hg : greedyInsert prob (pot.getD (rng' k % pot.length) dummyRoute)
          req with
      | none => exact ih _ (k + 1) (fun j hj => h j (by omega))
      | some r => rfl

/-- Claim C7 amended: the operators that take the engine's seeded
generator — `executeRandomRemoval` and `executeRandomInsertion` — are
functions of that threaded draw stream alone (streams agreeing from the
current position onward give identical results), whereas
`executeShawRemoval` additionally reads the module-global generator, so
identical engine seeds do not guarantee identical runs once Shaw removal
is selected. -/
theorem claim_C7_amended (prob : Problem) (rng rng' : Nat → Nat) :
    (∀ n k s, (∀ j, k ≤ j → rng j = rng' j) →
      executeRandomRemoval prob rng k n s =
        executeRandomRemoval prob rng' k n s) ∧
    (∀ fuel k s, (∀ j, k ≤ j → rng j = rng' j) →
      executeRandomInsertion prob rng fuel k s =
        executeRandomInsertion prob rng' fuel k s) := by
  constructor
  · intro n
    induction n with
    | zero => intro k s _; rfl
    | succ n ih =>
      intro k s h
      unfold executeRandomRemoval
      by_cases he : s.served.isEmpty
      · rw [if_pos he, if_pos he]
      · rw [if_neg he, if_neg he, h k (le_refl k)]
        dsimp only
        cases hx : Solution.removeRequest prob s
            (s.served.getD (rng' k % s.served.length) dummyReq) with
        | none => rfl
        | some s1 => exact ih (k + 1) s1 (fun j hj => h j (by omega))
  · intro fuel
    induction fuel with
    | zero => intro k s _; rfl
    | succ fuel ih =>
      intro k s h
      unfold executeRandomInsertion
      by_cases he : s.notServed.isEmpty
      · rw [if_pos he, if_pos he]
      · rw [if_neg he, if_neg he, h k (le_refl k)]
        dsimp only
        rw [randomInsertionTryRoutes_congr prob _ rng rng' s.routes.length
          s.routes (k + 1) (fun j hj => h j (by omega))]
        exact ih _ _ (fun j hj => h j
          (le_trans (le_trans (Nat.le_succ k)
            (randomInsertionTryRoutes_counter_ge prob rng' _ _ _ _)) hj))

/-- Concrete witness for the amended claim C7: two engine streams that
agree from position 1 onward (but differ at the unconsumed position 0)
give identical random-removal results. -/
theorem claim_C7_amended_witness :
    executeRandomRemoval flatProb (fun j => if j = 0 then 7 else 2) 1 1 solA =
      executeRandomRemoval flatProb (fun _ => 2) 1 1 solA :=
  (claim_C7_amended flatProb (fun j => if j = 0 then 7 else 2)
    (fun _ => 2)).1 1 1 solA
    (fun j hj => by
      have hne : j ≠ 0 := by omega
      simp [hne])

/-! ### Claim C8 -/

/-- EV test fixture: depot at node 0. -/
def evDepot : Location := ⟨0, 0, 0, 0, 0, 1000, 0, 0, 0⟩

/-- EV test fixture: a pickup 10 distance units from the depot. -/
def evPickup : Location := ⟨1, 10, 0, 1, 0, 1000, 0, 1, 1⟩

/-- EV test fixture: the paired delivery. -/
def evDeliv : Location := ⟨1, 12, 0, -1, 0, 1000, 0, -1, 2⟩

/-- EV test fixture: the single recharge station, 2 distance units from
the depot. -/
def evStation : Location := ⟨0, 1, 0, 0, 0, 1000, 0, 2, 3⟩

/-- EV test distance matrix: depot to pickup 10, depot to station 2,
pickup to delivery 1, delivery to depot 1. -/
def evMatrix : Nat → Nat → ℚ := fun i j =>
  if i = 0 ∧ j = 1 then 10
  else if i = 0 ∧ j = 3 then 2
  else if i = 1 ∧ j = 2 then 1
  else if i = 2 ∧ j = 0 then 1
  else 0

/-- EV-enabled problem: battery capacity 5, consumption rate 1, one
recharge station. -/
def evProb : Problem := ⟨evDepot, 10, [evStation], 5, 1, 1, true, evMatrix⟩

/-- Claim C8 fails on the code: on the route
`[depot, pickup, delivery, depot]` the battery (capacity 5) is exhausted
on the first leg (distance 10) before a stop that is not a recharge
station, and the single station is reachable from the previous stop with
the remaining battery (5 - 2·1 ≥ 0); yet `isFeasible` returns `false`
and splices nothing (the sequence is unchanged, not one element longer).
The code subtracts the detour from the battery level that ALREADY paid
for the full leg (a negative number), so its reachability test
`batteryLevel - minDist·rate < 0` can never pass once the splice branch
is reached. -/
theorem claim_C8_code_divergence :
    (isFeasible evProb [evDepot, evPickup, evDeliv, evDepot]).1 = false ∧
    (isFeasible evProb [evDepot, evPickup, evDeliv, evDepot]).2 =
      [evDepot, evPickup, evDeliv, evDepot] ∧
    evProb.isEV = true ∧
    evProb.batteryCapacity -
      evProb.distMatrix evDepot.nodeID evPickup.nodeID *
        evProb.batteryConsumptionRate < 0 ∧
    0 ≤ evProb.batteryCapacity -
      evProb.distMatrix evDepot.nodeID evStation.nodeID *
        evProb.batteryConsumptionRate := by
  norm_num [isFeasible, feasLoop, feasStep, findNearestStation, pyMaxsize,
    evProb, evDepot, evPickup, evDeliv, evStation, evMatrix, dummyLoc]

/-! ### Claim C10 -/

theorem randomInsertionTryRoutes_refuse (prob : Problem) (rng : Nat → Nat)
    (req : Request) :
    ∀ fuel pot k, (∀ r ∈ pot, greedyInsert prob r req = none) →
      (randomInsertionTryRoutes prob rng req fuel pot k).1 = none := by
  intro fuel
  induction fuel with
  | zero => intro pot k _; rfl
  | succ fuel ih =>
    intro pot k hall
    unfold randomInsertionTryRoutes
    by_cases he : pot.isEmpty
    · rw [if_pos he]
    · rw [if_neg he]
      dsimp only
      have hne : pot ≠ [] := fun hc => by simp [hc] at he
      have hm : pot.getD (rng k % pot.length) dummyRoute ∈ pot :=
        getD_mem_of_lt _ _ _ (Nat.mod_lt _ (List.length_pos.mpr hne))
      rw [hall _ hm]
      exact ih _ (k + 1) (fun r hr => hall r (List.erase_subset _ _ hr))

/-- Claim C10: `executeRandomInsertion` always terminates with the
unserved list empty (each pass serves exactly one request, so
`|notServed|` outer passes suffice), and a request that no existing route
accepts is placed on the newly opened route
`[depot, pickup, delivery, depot]` and marked served unconditionally —
the fallback never consults the new route's feasibility flag, so the
request may end up served by a route carrying the infeasible sentinel
cost. -/
theorem claim_C10_randomInsertion (prob : Problem) :
    (∀ rng fuel k s, s.notServed.length ≤ fuel →
      (executeRandomInsertion prob rng fuel k s).1.notServed = []) ∧
    (∀ rng k s req, s.notServed = [req] →
      (∀ r ∈ s.routes, greedyInsert prob r req = none) →
      (executeRandomInsertion prob rng 1 k s).1 =
        ⟨s.routes ++ [mkRoute prob
            [prob.depot, req.pickUpLoc, req.deliveryLoc, prob.depot] [req]],
          s.served ++ [req], [], s.distance⟩) := by
  constructor
  · intro rng fuel
    induction fuel with
    | zero =>
      intro k s h
      exact List.length_eq_zero.mp (Nat.le_zero.mp h)
    | succ fuel ih =>
      intro k s h
      unfold executeRandomInsertion
      by_cases he : s.notServed.isEmpty
      · rw [if_pos he]
        exact List.isEmpty_iff.mp he
      · rw [if_neg he]
        dsimp only
        apply ih
        have hne : s.notServed ≠ [] := fun hc => by simp [hc] at he
        have hpos : 0 < s.notServed.length := List.length_pos.mpr hne
        have hm : s.notServed.getD (rng k % s.notServed.length) dummyReq ∈
            s.notServed :=
          getD_mem_of_lt _ _ _ (Nat.mod_lt _ hpos)
        simp only [List.length_erase_of_mem hm]
        omega
  · intro rng k s req hns hall
    have hinner : (randomInsertionTryRoutes prob rng req s.routes.length
        s.routes (k + 1)).1 = none :=
      randomInsertionTryRoutes_refuse prob rng req s.routes.length s.routes
        (k + 1) hall
    unfold executeRandomInsertion
    rw [if_neg (by simp [hns])]
    dsimp only
    rw [hns]
    simp only [List.length_cons, List.length_nil, Nat.zero_add, Nat.mod_one,
      List.getD_cons_zero, hinner]
    unfold executeRandomInsertion
    simp [List.erase_cons_head]

/-- Fixture for the C10 witness: a request whose pickup window closes
before the 5-unit travel time from the depot, so even the fallback route
is infeasible. -/
def tightReq : Request :=
  ⟨⟨1, 0, 0, 1, 0, 1, 0, 1, 1⟩, ⟨1, 0, 0, -1, 0, 1, 0, -1, 2⟩, 1⟩

/-- Fixture for the C10 witness: every leg costs 5 time/distance units. -/
def tightProb : Problem := ⟨dummyLoc, 10, [], 100, 0, 0, false, fun _ _ => 5⟩

/-- Concrete witness for claim C10: with no existing routes, the
unplaceable request is still served on a freshly opened route whose
feasibility flag is false. -/
theorem claim_C10_randomInsertion_witness :
    (executeRandomInsertion tightProb (fun _ => 0) 1 0
        ⟨[], [], [tightReq], 0⟩).1 =
      ⟨[mkRoute tightProb [tightProb.depot, tightReq.pickUpLoc,
          tightReq.deliveryLoc, tightProb.depot] [tightReq]],
        [tightReq], [], 0⟩ ∧
    (mkRoute tightProb [tightProb.depot, tightReq.pickUpLoc,
        tightReq.deliveryLoc, tightProb.depot] [tightReq]).feasible = false := by
  constructor
  · have h := (claim_C10_randomInsertion tightProb).2 (fun _ => 0) 0
      ⟨[], [], [tightReq], 0⟩ tightReq rfl (fun r hr => absurd hr (by simp))
    simpa using h
  · norm_num [mkRoute, isFeasible, feasLoop, feasStep, tightProb, tightReq,
      dummyLoc]

/-! ### Claim C4 -/

/-- Loop invariant of the `greedyInsert` scan over the processed pair
list `P`: while no candidate is held, the best distance is still the
sentinel and every feasible processed candidate cost at least the
sentinel; once a candidate is held, it is feasible, is a candidate of
some processed pair, its distance is the held best distance, and it is
no more expensive than any feasible processed candidate. -/
def GreedyInv (prob : Problem) (base : List Location)
    (requests : List Request) (request : Request)
    (P : List (Nat × Nat)) (acc : Option Route × ℚ) : Prop :=
  (acc.1 = none → acc.2 = pyMaxsize ∧ ∀ ij ∈ P,
    (insertionCandidate prob base requests request ij).feasible = true →
      pyMaxsize ≤ (insertionCandidate prob base requests request ij).distance) ∧
  (∀ c, acc.1 = some c → acc.2 = c.distance ∧ c.feasible = true ∧
    (∃ ij ∈ P, c = insertionCandidate prob base requests request ij) ∧
    ∀ ij ∈ P,
      (insertionCandidate prob base requests request ij).feasible = true →
        c.distance ≤ (insertionCandidate prob base requests request ij).distance)

theorem greedyInv_step (prob : Problem) (base : List Location)
    (requests : List Request) (request : Request)
    {P : List (Nat × Nat)} {acc : Option Route × ℚ} (ij : Nat × Nat)
    (h : GreedyInv prob base requests request P acc) :
    GreedyInv prob base requests request (P ++ [ij])
      (greedyInsertStep prob base requests request acc ij) := by
  obtain ⟨hN, hS⟩ := h
  unfold greedyInsertStep
  by_cases hc : (insertionCandidate prob base requests request ij).feasible =
      true ∧ (insertionCandidate prob base requests request ij).distance < acc.2
  · rw [if_pos hc]
    constructor
    · intro hnone; simp at hnone
    · intro c hcs
      have hceq : c = insertionCandidate prob base requests request ij :=
        (Option.some_inj.mp hcs).symm
      subst hceq
      refine ⟨rfl, hc.1, ⟨ij, List.mem_append_right _ (List.mem_singleton_self _), rfl⟩, ?_⟩
      intro ij' hij' hfeas'
      rcases List.mem_append.mp hij' with hP | hlast
      · cases ha : acc.1 with
        | none =>
          obtain ⟨he, hbound⟩ := hN ha
          have h1 := hbound ij' hP hfeas'
          have h2 := hc.2
          rw [he] at h2
          linarith
        | some c0 =>
          obtain ⟨he0, _, _, hmin0⟩ := hS c0 ha
          have h1 := hmin0 ij' hP hfeas'
          have h2 := hc.2
          rw [he0] at h2
          linarith
      · rw [List.mem_singleton.mp hlast]
  · rw [if_neg hc]
    constructor
    · intro hnone
      obtain ⟨he, hbound⟩ := hN hnone
      refine ⟨he, ?_⟩
      intro ij' hij' hfeas'
      rcases List.mem_append.mp hij' with hP | hlast
      · exact hbound ij' hP hfeas'
      · rw [List.mem_singleton.mp hlast] at hfeas' ⊢
        have : ¬ (insertionCandidate prob base requests request ij).distance <
            acc.2 := fun hlt => hc ⟨hfeas', hlt⟩
        rw [he] at this
        exact not_lt.mp this
    · intro c hcs
      obtain ⟨he, hf, ⟨ij0, hij0, hc0⟩, hmin⟩ := hS c hcs
      refine ⟨he, hf, ⟨ij0, List.mem_append_left _ hij0, hc0⟩, ?_⟩
      intro ij' hij' hfeas'
      rcases List.mem_append.mp hij' with hP | hlast
      · exact hmin ij' hP hfeas'
      · rw [List.mem_singleton.mp hlast] at hfeas' ⊢
        have : ¬ (insertionCandidate prob base requests request ij).distance <
            acc.2 := fun hlt => hc ⟨hfeas', hlt⟩
        rw [he] at this
        exact not_lt.mp this

theorem greedyInv_foldl (prob : Problem) (base : List Location)
    (requests : List Request) (request : Request) :
    ∀ (L Q : List (Nat × Nat)) (acc : Option Route × ℚ),
      GreedyInv prob base requests request Q acc →
      GreedyInv prob base requests request (Q ++ L)
        (L.foldl (greedyInsertStep prob base requests request) acc) := by
  intro L
  induction L with
  | nil => intro Q acc h; simpa using h
  | cons ij L ih =>
    intro Q acc h
    have h2 := ih (Q ++ [ij]) _ (greedyInv_step prob base requests request ij h)
    rw [List.append_assoc] at h2
    simpa using h2

/-- Claim C4: `greedyInsert` returns either `None`, or a feasible
candidate obtained by inserting the pickup at position `i` and the
delivery at position `j > i` whose distance is minimal among all
feasible candidates over every such pair; it never returns an infeasible
candidate. -/
theorem claim_C4_greedyInsert (prob : Problem) (r : Route)
    (request : Request) :
    greedyInsert prob r request = none ∨
    ∃ ij ∈ insertionPairs r.locations.length,
      greedyInsert prob r request =
        some (insertionCandidate prob r.locations (r.requests ++ [request])
          request ij) ∧
      (insertionCandidate prob r.locations (r.requests ++ [request])
        request ij).feasible = true ∧
      ∀ ij' ∈ insertionPairs r.locations.length,
        (insertionCandidate prob r.locations (r.requests ++ [request])
          request ij').feasible = true →
        (insertionCandidate prob r.locations (r.requests ++ [request])
            request ij).distance ≤
          (insertionCandidate prob r.locations (r.requests ++ [request])
            request ij').distance := by
  have hinit : GreedyInv prob r.locations (r.requests ++ [request]) request []
      ((none : Option Route), pyMaxsize) := by
    constructor
    · intro _; exact ⟨rfl, by simp⟩
    · intro c hcs; simp at hcs
  have hfin := greedyInv_foldl prob r.locations (r.requests ++ [request])
    request (insertionPairs r.locations.length) [] _ hinit
  simp only [List.nil_append] at hfin
  cases hres : ((insertionPairs r.locations.length).foldl
      (greedyInsertStep prob r.locations (r.requests ++ [request]) request)
      ((none : Option Route), pyMaxsize)).1 with
  | none =>
    left
    unfold greedyInsert
    exact hres
  | some c =>
    right
    obtain ⟨_, hf, ⟨ij, hij, hc⟩, hmin⟩ := hfin.2 c hres
    refine ⟨ij, hij, ?_, ?_, ?_⟩
    · unfold greedyInsert
      rw [hres, hc]
    · rw [← hc]; exact hf
    · rw [← hc]; exact hmin

/-! ### Claim C9 -/

/-- Well-formedness of a route's data: the multiset of its requests'
pickup and delivery locations is contained in the multiset of its stops
(stated by counts, quantified over the locations that occur, which is
decidable; counts of other locations are zero). -/
def RouteWF (route : Route) : Prop :=
  ∀ loc ∈ route.requests.map Request.pickUpLoc ++
      route.requests.map Request.deliveryLoc,
    (route.requests.map Request.pickUpLoc ++
      route.requests.map Request.deliveryLoc).count loc ≤
      route.locations.count loc

instance (route : Route) : Decidable (RouteWF route) := by
  unfold RouteWF; infer_instance

theorem routeWF_count {route : Route} (h : RouteWF route) (loc : Location) :
    (route.requests.map Request.pickUpLoc ++
      route.requests.map Request.deliveryLoc).count loc ≤
      route.locations.count loc := by
  by_cases hm : loc ∈ route.requests.map Request.pickUpLoc ++
      route.requests.map Request.deliveryLoc
  · exact h loc hm
  · rw [List.count_eq_zero_of_not_mem hm]
    exact Nat.zero_le _

/-- Well-formedness of a solution: duplicate-free served list and
well-formed routes. -/
def SolutionWF (s : Solution) : Prop :=
  s.served.Nodup ∧ ∀ route ∈ s.routes, RouteWF route

instance (s : Solution) : Decidable (SolutionWF s) := by
  unfold SolutionWF; infer_instance

theorem count_le_insertIdx {α : Type} [DecidableEq α] (l : List α) (i : Nat)
    (a loc : α) : l.count loc ≤ (l.insertIdx i a).count loc := by
  by_cases hle : i ≤ l.length
  · rw [(List.perm_insertIdx a l hle).count_eq, List.count_cons]
    exact Nat.le_add_right _ _
  · exact le_of_eq (congrArg (fun t => List.count loc t)
      (List.insertIdx_of_length_lt l a i (by omega)).symm)

theorem feasStep_locs {prob : Problem} {i : Nat} {st st' : FeasState}
    (h : feasStep prob i st = Sum.inl (some st')) :
    st'.locs = st.locs ∨ ∃ station, st'.locs = st.locs.insertIdx i station := by
  unfold feasStep at h
  dsimp only at h
  split at h
  · exact absurd h (by simp)
  · split at h
    · exact absurd h (by simp)
    · split at h
      · exact absurd h (by simp)
      · split at h
        · split at h
          · simp only [Sum.inl.injEq, Option.some.injEq] at h
            subst h
            left; rfl
          · split at h
            · exact absurd h (by simp)
            · split at h
              · exact absurd h (by simp)
              · rename_i station hst
                simp only [Sum.inl.injEq, Option.some.injEq] at h
                subst h
                right
                exact ⟨station, rfl⟩
        · simp only [Sum.inl.injEq, Option.some.injEq] at h
          subst h
          left; rfl

theorem feasStep_locs_inr {prob : Problem} {i : Nat} {st : FeasState}
    {r : Bool × List Location} (h : feasStep prob i st = Sum.inr r) :
    r.2 = st.locs := by
  unfold feasStep at h
  dsimp only at h
  split at h
  · cases h; rfl
  · split at h
    · cases h; rfl
    · split at h
      · cases h; rfl
      · split at h
        · split at h
          · exact absurd h (by simp)
          · split at h
            · cases h; rfl
            · split at h
              · cases h; rfl
              · exact absurd h (by simp)
        · exact absurd h (by simp)

theorem feasLoop_count (prob : Problem) (loc : Location) :
    ∀ fuel i st, st.locs.count loc ≤
      ((feasLoop prob fuel i st).2).count loc := by
  intro fuel
  induction fuel with
  | zero => intro i st; exact le_refl _
  | succ fuel ih =>
    intro i st
    unfold feasLoop
    cases hstep : feasStep prob i st with
    | inr r => rw [feasStep_locs_inr hstep]
    | inl o =>
      cases o with
      | none => exact le_refl _
      | some st' =>
        rcases feasStep_locs hstep with heq | ⟨station, heq⟩
        · have := ih (i + 1) st'
          rw [heq] at this
          exact this
        · have h1 := count_le_insertIdx st.locs i station loc
          rw [← heq] at h1
          exact le_trans h1 (ih (i + 1) st')

/-- The feasibility scan never removes stops: it can only splice recharge
stations into the sequence. -/
theorem isFeasible_count (prob : Problem) (locations : List Location)
    (loc : Location) :
    locations.count loc ≤ ((isFeasible prob locations).2).count loc := by
  unfold isFeasible
  cases h1 : locations.head? with
  | none => exact le_refl _
  | some hd =>
    cases h2 : locations.getLast? with
    | none => exact le_refl _
    | some lst =>
      dsimp only
      by_cases hd2 : hd = prob.depot ∧ lst = prob.depot
      · rw [if_pos hd2]
        exact feasLoop_count prob loc (locations.length - 2) 1
          ⟨0, 0, prob.batteryCapacity, [], locations⟩
      · rw [if_neg hd2]

theorem route_removeRequest_wf (prob : Problem) {route : Route}
    {req : Request} (hwf : RouteWF route) (hm : req ∈ route.requests) :
    ∃ route', Route.removeRequest prob route req = some route' ∧
      RouteWF route' ∧ route'.requests = route.requests.erase req := by
  have hpum : req.pickUpLoc ∈ route.locations := by
    apply List.count_pos_iff.mp
    refine lt_of_lt_of_le ?_ (routeWF_count hwf req.pickUpLoc)
    rw [List.count_append]
    have m1 : req.pickUpLoc ∈ route.requests.map Request.pickUpLoc :=
      List.mem_map_of_mem _ hm
    have c1 := List.count_pos_iff.mpr m1
    omega
  have hdlm : req.deliveryLoc ∈ route.locations.erase req.pickUpLoc := by
    apply List.count_pos_iff.mp
    rw [List.count_erase]
    have m2 : req.deliveryLoc ∈ route.requests.map Request.deliveryLoc :=
      List.mem_map_of_mem _ hm
    have hc := routeWF_count hwf req.deliveryLoc
    rw [List.count_append] at hc
    by_cases he : req.pickUpLoc = req.deliveryLoc
    · have m1 : req.deliveryLoc ∈ route.requests.map Request.pickUpLoc := by
        rw [← he]; exact List.mem_map_of_mem _ hm
      have c1 := List.count_pos_iff.mpr m1
      have c2 := List.count_pos_iff.mpr m2
      simp only [he, beq_self_eq_true, if_true]
      omega
    · have c2 := List.count_pos_iff.mpr m2
      have hbe : (req.pickUpLoc == req.deliveryLoc) = false := by
        simp [he]
      rw [hbe]
      simp only [Bool.false_eq_true, if_false]
      omega
  refine ⟨⟨(route.locations.erase req.pickUpLoc).erase req.deliveryLoc,
    route.requests.erase req, route.feasible,
    computeDistance prob
      ((route.locations.erase req.pickUpLoc).erase req.deliveryLoc)⟩,
    ?_, ?_, rfl⟩
  · simp [Route.removeRequest, pyRemove, hm, hpum, hdlm]
  · intro loc _
    dsimp only
    have hcount := routeWF_count hwf loc
    rw [List.count_append] at hcount
    rw [List.count_append]
    have hperm := List.perm_cons_erase hm
    have hpu : (route.requests.map Request.pickUpLoc).count loc =
        ((route.requests.erase req).map Request.pickUpLoc).count loc +
          if req.pickUpLoc = loc then 1 else 0 := by
      rw [(hperm.map Request.pickUpLoc).count_eq, List.map_cons,
        List.count_cons]
      simp [beq_iff_eq]
    have hdl : (route.requests.map Request.deliveryLoc).count loc =
        ((route.requests.erase req).map Request.deliveryLoc).count loc +
          if req.deliveryLoc = loc then 1 else 0 := by
      rw [(hperm.map Request.deliveryLoc).count_eq, List.map_cons,
        List.count_cons]
      simp [beq_iff_eq]
    have hl1 : (route.locations.erase req.pickUpLoc).count loc =
        route.locations.count loc -
          if req.pickUpLoc = loc then 1 else 0 := by
      rw [List.count_erase]
      simp only [beq_iff_eq]
    have hl2 : ((route.locations.erase req.pickUpLoc).erase
        req.deliveryLoc).count loc =
        (route.locations.erase req.pickUpLoc).count loc -
          if req.deliveryLoc = loc then 1 else 0 := by
      rw [List.count_erase]
      simp only [beq_iff_eq]
    rw [hl2, hl1]
    omega

theorem removeFromFirstRoute_wf (prob : Problem) :
    ∀ (routes : List Route) (req : Request),
      (∀ route ∈ routes, RouteWF route) →
      ∃ routes', removeFromFirstRoute prob routes req = some routes' ∧
        ∀ route ∈ routes', RouteWF route := by
  intro routes
  induction routes with
  | nil => intro req _; exact ⟨[], rfl, by simp⟩
  | cons r rs ih =>
    intro req h
    unfold removeFromFirstRoute
    by_cases hm : req ∈ r.requests
    · rw [if_pos hm]
      obtain ⟨r', hr', hwf', _⟩ :=
        route_removeRequest_wf prob (h r (List.mem_cons_self r rs)) hm
      rw [hr']
      refine ⟨r' :: rs, rfl, ?_⟩
      intro route hroute
      rcases List.mem_cons.mp hroute with heq | hmem
      · rw [heq]; exact hwf'
      · exact h route (List.mem_cons_of_mem _ hmem)
    · rw [if_neg hm]
      obtain ⟨rs', hrs', hwf'⟩ :=
        ih req (fun route hr => h route (List.mem_cons_of_mem _ hr))
      rw [hrs']
      refine ⟨r :: rs', rfl, ?_⟩
      intro route hroute
      rcases List.mem_cons.mp hroute with heq | hmem
      · rw [heq]; exact h r (List.mem_cons_self r rs)
      · exact hwf' route hmem

theorem solution_removeRequest_wf (prob : Problem) {s : Solution}
    {req : Request} (hwf : SolutionWF s) (hm : req ∈ s.served) :
    ∃ s', Solution.removeRequest prob s req = some s' ∧ SolutionWF s' ∧
      s'.served = s.served.erase req ∧
      s'.notServed = s.notServed ++ [req] := by
  obtain ⟨routes', hr, hwfr⟩ := removeFromFirstRoute_wf prob s.routes req hwf.2
  refine ⟨⟨routes', s.served.erase req, s.notServed ++ [req], s.distance⟩,
    ?_, ⟨hwf.1.erase req, hwfr⟩, rfl, rfl⟩
  simp [Solution.removeRequest, hr, pyRemove, hm]

theorem solution_copy_wf (prob : Problem) {s : Solution}
    (hwf : SolutionWF s) : SolutionWF (Solution.copy prob s) := by
  constructor
  · exact hwf.1
  · intro route hroute
    have hroute' : route ∈ s.routes.map (Route.copy prob) := hroute
    obtain ⟨r0, hr0, heq⟩ := List.mem_map.mp hroute'
    subst heq
    intro loc _
    refine le_trans (routeWF_count (hwf.2 r0 hr0) loc) ?_
    exact isFeasible_count prob r0.locations loc

theorem mapM_fst {α β : Type} (f : α → Option (α × β)) :
    ∀ (l : List α), (∀ a ∈ l, ∃ p, f a = some p ∧ p.1 = a) →
      ∃ res, l.mapM f = some res ∧ res.map Prod.fst = l := by
  intro l
  induction l with
  | nil => intro _; exact ⟨[], rfl, rfl⟩
  | cons a l ih =>
    intro h
    obtain ⟨p, hp, hfst⟩ := h a (List.mem_cons_self a l)
    obtain ⟨res, hres, hmap⟩ := ih (fun a' ha' => h a' (List.mem_cons_of_mem _ ha'))
    refine ⟨p :: res, ?_, by simp [hmap, hfst]⟩
    rw [List.mapM_cons, hp, hres]
    rfl

theorem worstRemovalSavings_wf (prob : Problem) {s : Solution}
    (hwf : SolutionWF s) :
    ∃ savings, worstRemovalSavings prob s = some savings ∧
      savings.map Prod.fst = s.served := by
  apply mapM_fst
  intro req hreq
  have hcopy := solution_copy_wf prob hwf
  have hmcopy : req ∈ (Solution.copy prob s).served := hreq
  obtain ⟨t, ht, _, _, _⟩ := solution_removeRequest_wf prob hcopy hmcopy
  exact ⟨(req, s.distance - (Solution.computeDistance t).distance),
    by rw [ht]; rfl, rfl⟩

theorem worstRemovalLoop_wf (prob : Problem) :
    ∀ (L : List (Request × ℚ)) (s : Solution), SolutionWF s →
      (∀ req ∈ L.map Prod.fst, req ∈ s.served) →
      (L.map Prod.fst).Nodup →
      ∃ s', worstRemovalLoop prob L s = some s' ∧
        s'.notServed = s.notServed ++ L.map Prod.fst ∧
        s'.served.length + L.length = s.served.length := by
  intro L
  induction L with
  | nil => intro s _ _ _; exact ⟨s, rfl, by simp, by simp⟩
  | cons hd tl ih =>
    obtain ⟨req, sc⟩ := hd
    intro s hwf hmem hnd
    have hm : req ∈ s.served := hmem req (by simp)
    obtain ⟨s1, hs1, hwf1, hserved1, hnot1⟩ :=
      solution_removeRequest_wf prob hwf hm
    simp only [List.map_cons, List.nodup_cons] at hnd
    have hmem1 : ∀ r' ∈ tl.map Prod.fst, r' ∈ s1.served := by
      intro r' hr'
      rw [hserved1]
      refine (List.mem_erase_of_ne ?_).mpr (hmem r' (by simp [hr']))
      intro hc
      exact hnd.1 (hc ▸ hr')
    obtain ⟨s', hs', hnot', hlen'⟩ := ih s1 hwf1 hmem1 hnd.2
    refine ⟨s', ?_, ?_, ?_⟩
    · unfold worstRemovalLoop
      rw [if_pos hm, hs1]
      exact hs'
    · rw [hnot', hnot1]
      simp
    · rw [hserved1, List.length_erase_of_mem hm] at hlen'
      have hpos : 0 < s.served.length :=
        List.length_pos.mpr (List.ne_nil_of_mem hm)
      simp only [List.length_cons]
      omega

/-- Claim C9: given a well-formed solution, `executeWorstRemoval`
computes for every served request the saving
`self.distance − distance-of-clone-with-it-removed`, sorts the savings
descending (stably), removes exactly the top `min(nRemove, |served|)`
requests, and never fails — in particular `nRemove > |served|` removes
exactly `|served|` requests without error. -/
theorem claim_C9_worstRemoval (prob : Problem) (nRemove : Nat)
    (s : Solution) (hwf : SolutionWF s) :
    ∃ savings s',
      worstRemovalSavings prob s = some savings ∧
      savings.map Prod.fst = s.served ∧
      executeWorstRemoval prob nRemove s = some s' ∧
      s'.notServed = s.notServed ++
        ((pySortByScoreDesc savings).take
          (min nRemove savings.length)).map Prod.fst ∧
      s'.served.length = s.served.length - min nRemove s.served.length := by
  obtain ⟨savings, hsav, hfst⟩ := worstRemovalSavings_wf prob hwf
  by_cases he : s.served.isEmpty
  · have hsnil : s.served = [] := List.isEmpty_iff.mp he
    have hsavnil : savings = [] := by
      have := hfst
      rw [hsnil] at this
      exact List.map_eq_nil_iff.mp this
    refine ⟨savings, s, hsav, hfst, ?_, ?_, ?_⟩
    · unfold executeWorstRemoval
      rw [if_pos he]
    · rw [hsavnil]
      simp [pySortByScoreDesc, List.insertionSort]
    · rw [hsnil]
      simp
  · have hperm : (pySortByScoreDesc savings).Perm savings :=
      List.perm_insertionSort _ _
    have hndserved : (savings.map Prod.fst).Nodup := by
      rw [hfst]; exact hwf.1
    have hndsort : ((pySortByScoreDesc savings).map Prod.fst).Nodup :=
      (hperm.map Prod.fst).nodup_iff.mpr hndserved
    have hndL : ((((pySortByScoreDesc savings).take
        (min nRemove savings.length))).map Prod.fst).Nodup := by
      rw [List.map_take]
      exact hndsort.sublist (List.take_sublist _ _)
    have hsubL : ∀ req ∈ (((pySortByScoreDesc savings).take
        (min nRemove savings.length))).map Prod.fst, req ∈ s.served := by
      intro req hreq
      rw [List.map_take] at hreq
      have h1 : req ∈ (pySortByScoreDesc savings).map Prod.fst :=
        List.mem_of_mem_take hreq
      have h2 : req ∈ savings.map Prod.fst :=
        (hperm.map Prod.fst).mem_iff.mp h1
      rw [hfst] at h2
      exact h2
    obtain ⟨s', hs', hnot', hlen'⟩ := worstRemovalLoop_wf prob
      ((pySortByScoreDesc savings).take (min nRemove savings.length)) s hwf
      hsubL hndL
    refine ⟨savings, s', hsav, hfst, ?_, hnot', ?_⟩
    · unfold executeWorstRemoval
      rw [if_neg he, hsav]
      exact hs'
    · have hlenL : ((pySortByScoreDesc savings).take
          (min nRemove savings.length)).length =
          min nRemove savings.length := by
        rw [List.length_take, hperm.length_eq]
        omega
      have hsavlen : savings.length = s.served.length := by
        rw [← hfst, List.length_map]
      omega

/-- Concrete witness for claim C9: worst removal with `nRemove = 5` on a
solution serving a single request removes exactly that one request and
does not fail. -/
theorem claim_C9_worstRemoval_witness :
    ∃ savings s',
      worstRemovalSavings flatProb solA = some savings ∧
      savings.map Prod.fst = solA.served ∧
      executeWorstRemoval flatProb 5 solA = some s' ∧
      s'.notServed = solA.notServed ++
        ((pySortByScoreDesc savings).take
          (min 5 savings.length)).map Prod.fst ∧
      s'.served.length = solA.served.length - min 5 solA.served.length :=
  claim_C9_worstRemoval flatProb 5 solA
    (by constructor
        · simp [solA]
        · intro route hroute
          simp only [solA, List.mem_singleton] at hroute
          subst hroute
          intro loc hloc
          fin_cases hloc <;> simp [routeA, reqA, dummyLoc, List.count_cons])

/-- Concrete instance of claim C4 on a one-request route and a second
request to insert. -/
theorem claim_C4_greedyInsert_witness :
    greedyInsert flatProb routeA reqB = none ∨
    ∃ ij ∈ insertionPairs routeA.locations.length,
      greedyInsert flatProb routeA reqB =
        some (insertionCandidate flatProb routeA.locations
          (routeA.requests ++ [reqB]) reqB ij) ∧
      (insertionCandidate flatProb routeA.locations
        (routeA.requests ++ [reqB]) reqB ij).feasible = true ∧
      ∀ ij' ∈ insertionPairs routeA.locations.length,
        (insertionCandidate flatProb routeA.locations
          (routeA.requests ++ [reqB]) reqB ij').feasible = true →
        (insertionCandidate flatProb routeA.locations
            (routeA.requests ++ [reqB]) reqB ij).distance ≤
          (insertionCandidate flatProb routeA.locations
            (routeA.requests ++ [reqB]) reqB ij').distance :=
  claim_C4_greedyInsert flatProb routeA reqB

end PDPTW
